import Mathlib

/-!
Verification of the `pygot` serialisation engine and static catalog registry.

This file shallowly embeds the Python code of `pygot/serialisation.py` and
`pygot/static.py` into Lean:

* Python values that the serialiser dispatches on are modelled by the
  inductive `PyVal`.  Mappings are modelled with `String` keys (the claims
  under scrutiny concern string-keyed mappings); Python floats are modelled
  by `PFloat`, which distinguishes NaN, the two infinities and finite values
  (the payload of a finite float is its bit pattern, which the serialiser
  never inspects).
* Fallible Python code is modelled with `Except PyErr`; each `PyErr`
  constructor corresponds to a Python exception class.
* `snake_case`, `camel_case`, `jsonify` and `unjsonify` are transcribed from
  `pygot/serialisation.py`; `_jsonify_static_data` and the registry machinery
  (`StaticData.__new__`, the generated `__setattr__`) from `pygot/static.py`.
* Runtime type resolution (`importlib.import_module` + `getattr`) is
  parametrised by an environment `Env` mapping `(module, name)` pairs to the
  resolvable entities the decoder distinguishes.
-/

namespace Pygot

/-- Python float, as far as the serialiser observes it: `math.isnan`,
`math.isinf`, the sign of an infinity, and otherwise an uninterpreted finite
value (carried as its IEEE bit pattern, never inspected by the code). -/
inductive PFloat where
  | nan : PFloat
  | inf (pos : Bool) : PFloat
  | finite (bits : Nat) : PFloat
  deriving DecidableEq, Repr

/-- Python exception classes raised by the embedded code. -/
inductive PyErr where
  | valueError (msg : String) : PyErr
  | typeError (msg : String) : PyErr
  | attributeError (msg : String) : PyErr
  | keyError (msg : String) : PyErr
  | staticTypeConflict (msg : String) : PyErr
  | staticInstanceConflict (msg : String) : PyErr
  | expectedStaticAttr (msg : String) : PyErr
  | unexpectedStaticAttr (msg : String) : PyErr
  deriving DecidableEq, Repr

/-- A calendar date (components of `datetime.date`). -/
structure DateC where
  year : Nat
  month : Nat
  day : Nat
  deriving DecidableEq, Repr

/-- The timezone objects the claims exercise: `None` (naive), `pytz.utc`,
`datetime.timezone.utc`, and a custom `tzinfo` implementation with a fixed
offset in minutes (unknown to `pytz`).  Named tzdata zones other than UTC are
outside the model. -/
inductive PyTz where
  | noTz : PyTz
  | pytzUtc : PyTz
  | stdUtc : PyTz
  | custom (minutes : Int) : PyTz
  deriving DecidableEq, Repr

/-- The Python values `jsonify`/`unjsonify` dispatch over (restricted to the
runtime types the claims need; `datetime.date`, `datetime.time`, `Enum` and
`JSONMixin` carriers are not required by any claim).  A `datetime.datetime`
carries its wall-clock date, the time of day in microseconds, and a timezone.
A `static` value is a member class registered in a `StaticData` category:
it carries the category's module and name, the member name and the member's
static (fixed) fields. -/
inductive PyVal where
  | none : PyVal
  | bool (b : Bool) : PyVal
  | int (n : Int) : PyVal
  | float (f : PFloat) : PyVal
  | str (s : String) : PyVal
  | list (xs : List PyVal) : PyVal
  | dict (es : List (String × PyVal)) : PyVal
  | dataclass (module ty : String) (fields : List (String × PyVal)) : PyVal
  | pydatetime (d : DateC) (tod : Nat) (tz : PyTz) : PyVal
  | static (catModule catName memberName : String)
      (staticFields : List (String × PyVal)) : PyVal
  deriving Repr

/-! ### Identifier case conversion (`serialisation.snake_case`, `camel_case`) -/

/-- `str.isupper` for a single character, on the ASCII range the converters
admit. -/
def pyIsUpper (c : Char) : Bool := 65 ≤ c.toNat && c.toNat ≤ 90

/-- `str.islower` for a single character, on the ASCII range the converters
admit. -/
def pyIsLower (c : Char) : Bool := 97 ≤ c.toNat && c.toNat ≤ 122

/-- Characters allowed by both converters: `ascii_letters + digits + '_'`. -/
def allowedChar (c : Char) : Bool :=
  pyIsUpper c || pyIsLower c || (48 ≤ c.toNat && c.toNat ≤ 57) || c.toNat = 95

/-- `str.isalpha` for a single character, on the ASCII range the converters
admit (every input reaching the conversion loop has been validated). -/
def pyIsAlpha (c : Char) : Bool := pyIsUpper c || pyIsLower c

/-- The character loop of `snake_case` (`serialisation.py` lines 78-101).
`uppercase` is the "in an uppercase series" flag, initially `true`. -/
def snakeLoop : Bool → List Char → List Char
  | _, [] => []
  | uppercase, c :: cs =>
    if !pyIsAlpha c then c :: snakeLoop false cs
    else if pyIsLower c then c :: snakeLoop false cs
    else if !uppercase then '_' :: c.toLower :: snakeLoop true cs
    else c.toLower :: snakeLoop true cs

/-- `serialisation.snake_case`: camelCase to snake_case, rejecting any
character outside ASCII letters, digits and underscore. -/
def snake_case (s : String) : Except PyErr String :=
  if s.toList.all allowedChar then
    .ok (String.mk (snakeLoop true s.toList))
  else
    .error (.valueError "Identifiers must only have ASCII characters")

/-- `'_'.split`-style splitting used by `camel_case`
(`'abc_de'.split('_') = ['abc', 'de']`, `''.split('_') = ['']`). -/
def splitUnderscore : List Char → List (List Char)
  | [] => [[]]
  | c :: cs =>
    if c = '_' then [] :: splitUnderscore cs
    else
      match splitUnderscore cs with
      | [] => [[c]]
      | w :: ws => (c :: w) :: ws

/-- `str.capitalize` on an already-lowercased ASCII word. -/
def capitalizeWord : List Char → List Char
  | [] => []
  | c :: cs => c.toUpper :: cs

/-- The word loop of `camel_case` (`serialisation.py` lines 119-132):
empty segments re-emit a literal underscore, the first non-empty word is kept
verbatim, later words are capitalised.  The input words come from
`string.lower().split('_')`. -/
def camelWords : Bool → List (List Char) → List Char
  | _, [] => []
  | first, w :: ws =>
    if w = [] then '_' :: camelWords first ws
    else if first then w ++ camelWords false ws
    else capitalizeWord w ++ camelWords false ws

/-- `serialisation.camel_case`: snake_case to camelCase.  Note that the
source lowercases the whole string before splitting on underscores. -/
def camel_case (s : String) : Except PyErr String :=
  if s.toList.all allowedChar then
    if s.toList = [] then .ok s
    else .ok (String.mk (camelWords true (splitUnderscore (s.toList.map Char.toLower))))
  else
    .error (.valueError "Identifiers must only have ASCII characters")

/-! ### Python dict operations

Python dicts are insertion ordered.  We model a dict as an association list
with (by invariant) distinct keys; assignment updates an existing key in
place and otherwise appends. -/

/-- Dict assignment `d[k] = v`. -/
def dictInsert : List (String × PyVal) → String → PyVal → List (String × PyVal)
  | [], k, v => [(k, v)]
  | (k', v') :: rest, k, v =>
    if k' = k then (k', v) :: rest else (k', v') :: dictInsert rest k v

/-- Building a dict from a sequence of key/value pairs (a dict display or
comprehension): later duplicates overwrite the value in place. -/
def fromPairs (ps : List (String × PyVal)) : List (String × PyVal) :=
  ps.foldl (fun acc kv => dictInsert acc kv.1 kv.2) []

/-- `d.pop(k, None)`: the removed value (if present) and the remaining dict. -/
def dictPop (k : String) : List (String × PyVal) → Option PyVal × List (String × PyVal)
  | [] => (Option.none, [])
  | (k', v) :: rest =>
    if k' = k then (some v, rest)
    else
      let r := dictPop k rest
      (r.1, (k', v) :: r.2)

/-! ### Calendar and timezone arithmetic (`datetime` + `pytz` fragment) -/

/-- Gregorian leap year. -/
def isLeap (y : Nat) : Bool := y % 4 = 0 && (y % 100 ≠ 0 || y % 400 = 0)

/-- Length of a month. -/
def daysInMonth (y m : Nat) : Nat :=
  if m = 2 then (if isLeap y then 29 else 28)
  else if m = 4 ∨ m = 6 ∨ m = 9 ∨ m = 11 then 30
  else 31

/-- A representable `datetime.date` component triple. -/
def validDate (d : DateC) : Prop :=
  1 ≤ d.year ∧ d.year ≤ 9999 ∧ 1 ≤ d.month ∧ d.month ≤ 12 ∧
    1 ≤ d.day ∧ d.day ≤ daysInMonth d.year d.month

instance (d : DateC) : Decidable (validDate d) := by
  unfold validDate; infer_instance

/-- The next calendar day. -/
def dateSucc (d : DateC) : DateC :=
  if d.day < daysInMonth d.year d.month then ⟨d.year, d.month, d.day + 1⟩
  else if d.month < 12 then ⟨d.year, d.month + 1, 1⟩
  else ⟨d.year + 1, 1, 1⟩

/-- The previous calendar day. -/
def datePred (d : DateC) : DateC :=
  if 1 < d.day then ⟨d.year, d.month, d.day - 1⟩
  else if 1 < d.month then ⟨d.year, d.month - 1, daysInMonth d.year (d.month - 1)⟩
  else ⟨d.year - 1, 12, 31⟩

/-- Days since 0000-03-01 (era-shifted civil-to-days conversion; total on
dates with `year ≥ 1`, and on year 0 for months ≥ 3). -/
def daysFromCivil (d : DateC) : Nat :=
  let y := d.year - (if d.month ≤ 2 then 1 else 0)
  let era := y / 400
  let yoe := y % 400
  let mp := (d.month + 9) % 12
  let doy := (153 * mp + 2) / 5 + d.day - 1
  let doe := yoe * 365 + yoe / 4 - yoe / 100 + doy
  era * 146097 + doe

/-- The year-dependent part of `daysFromCivil` (era and year-of-era terms),
split out so that the day-count lemmas can reason about year rollover in
isolation. -/
def yearParts (y : Nat) : Nat :=
  y / 400 * 146097 + (y % 400 * 365 + y % 400 / 4 - y % 400 / 100)

/-- Microseconds per day. -/
def microPerDay : Nat := 86400000000

/-- `tzinfo.utcoffset` in microseconds. -/
def tzOffsetMicro : PyTz → Int
  | .noTz => 0
  | .pytzUtc => 0
  | .stdUtc => 0
  | .custom o => o * 60000000

/-- The absolute instant an aware datetime denotes, in microseconds on a
linear timeline (wall-clock reading minus UTC offset). -/
def instantMicro (d : DateC) (tod : Nat) (tz : PyTz) : Int :=
  (daysFromCivil d : Int) * microPerDay + tod - tzOffsetMicro tz

/-- `dt.astimezone(pytz.utc)` for a datetime carrying a fixed-offset custom
timezone of `offMin` minutes: the wall clock is shifted to UTC.  Python
guarantees `-1440 < offMin < 1440`, so at most one day boundary is crossed. -/
def astimezoneUtc (d : DateC) (tod : Nat) (offMin : Int) : DateC × Nat :=
  let s : Int := (tod : Int) - offMin * 60000000
  if s < 0 then (datePred d, (s + microPerDay).toNat)
  else if s < microPerDay then (d, s.toNat)
  else (dateSucc d, (s - microPerDay).toNat)

/-- Zero-padded decimal rendering. -/
def padNat (w n : Nat) : String :=
  let s := toString n
  String.mk (List.replicate (w - s.length) '0') ++ s

/-- The `%z` suffix of `strftime`: empty for a naive value, `±HHMM` for an
aware one. -/
def tzOffsetSuffix : PyTz → String
  | .noTz => ""
  | .pytzUtc => "+0000"
  | .stdUtc => "+0000"
  | .custom o =>
    (if o < 0 then "-" else "+") ++ padNat 2 (o.natAbs / 60) ++ padNat 2 (o.natAbs % 60)

/-- `obj.strftime('%Y-%m-%dT%H:%M:%S.%f%z')` (`_jsonify_datetime`, untagged
branch). -/
def datetimeStrftime (d : DateC) (tod : Nat) (tz : PyTz) : String :=
  padNat 4 d.year ++ "-" ++ padNat 2 d.month ++ "-" ++ padNat 2 d.day ++ "T" ++
  padNat 2 (tod / 3600000000) ++ ":" ++ padNat 2 (tod / 60000000 % 60) ++ ":" ++
  padNat 2 (tod / 1000000 % 60) ++ "." ++ padNat 6 (tod % 1000000) ++ tzOffsetSuffix tz

/-- The tagged wire mapping `_jsonify_datetime` emits for a UTC-normalised
datetime: the `date_time` tag, the seven wall-clock components and the
canonical `"UTC"` zone identifier. -/
def dtTagDict (d' : DateC) (tod' : Nat) : PyVal :=
  .dict [("$module", .str "pygot.serialisation"), ("$type", .str "date_time"),
    ("year", .int d'.year), ("month", .int d'.month), ("day", .int d'.day),
    ("hour", .int (tod' / 3600000000)), ("minute", .int (tod' / 60000000 % 60)),
    ("second", .int (tod' / 1000000 % 60)), ("microsecond", .int (tod' % 1000000)),
    ("timezone", .str "UTC")]

/-! ### The structural encoder (`serialisation.jsonify`) -/

/-- The module-level attributes of `pygot.serialisation` that hold reserved
tag keys.  The module defines `_MODULE_KEY = '$module'` and
`_NAME_KEY = '$type'` only; there is no public `MODULE_KEY`/`NAME_KEY`
attribute (`pygot/serialisation.py` lines 36-37), which matters for
`static._jsonify_static_data`. -/
def serialisationKeyAttr (attr : String) : Option String :=
  List.lookup attr [("_MODULE_KEY", "$module"), ("_NAME_KEY", "$type")]

/-- `{camel_case(k) if isinstance(k, str) else k: v for k, v in d.items()}`
(all modelled keys are strings). -/
def camelRekey (d : List (String × PyVal)) : Except PyErr (List (String × PyVal)) := do
  let ps ← d.mapM (fun kv => do pure (← camel_case kv.1, kv.2))
  pure (fromPairs ps)

mutual

/-- `serialisation.jsonify` (single-dispatch): the default arm passes
scalars (and anything unrecognised) through with a warning;
`_jsonify_float`, `_jsonify_sequence`, `_jsonify_mapping`,
`_jsonify_dataclass`, `_jsonify_datetime` and `static._jsonify_static_data`
are transcribed case by case. -/
def jsonify (camel arg : Bool) : PyVal → Except PyErr PyVal
  | .none => .ok .none
  | .bool b => .ok (.bool b)
  | .int n => .ok (.int n)
  | .str s => .ok (.str s)
  | .float f =>
    match f with
    | .finite bits => .ok (.float (.finite bits))
    | .nan =>
      if arg then
        .ok (.dict [("$module", .str "builtins"), ("$type", .str "float"),
                    ("x", .str "nan")])
      else .ok (.str "nan")
    | .inf pos =>
      if arg then
        .ok (.dict [("$module", .str "builtins"), ("$type", .str "float"),
                    ("x", .str (if pos then "+inf" else "-inf"))])
      else .ok (.str (if pos then "+inf" else "-inf"))
  | .list xs => do
    pure (.list (← jsonifyList camel arg xs))
  | .dict es => do
    let es' ← jsonifyValues camel arg es
    let d := fromPairs es'
    if camel then pure (.dict (← camelRekey d)) else pure (.dict d)
  | .dataclass m t fs => do
    let ps ← jsonifyFields camel arg fs
    let d := fromPairs ps
    let d := if arg then dictInsert (dictInsert d "$module" (.str m)) "$type" (.str t)
             else d
    pure (.dict d)
  | .pydatetime d tod tz =>
    if !arg then .ok (.str (datetimeStrftime d tod tz)) else
    -- `datetime.timezone.utc` is replaced by `pytz.utc` first
    let tz1 := if tz = .stdUtc then .pytzUtc else tz
    -- an unrecognised (non-pytz) tzinfo implementation is coerced to UTC
    let s : DateC × Nat × PyTz :=
      match tz1 with
      | .custom o =>
        let p := astimezoneUtc d tod o
        (p.1, p.2, .pytzUtc)
      | _ => (d, tod, tz1)
    .ok (.dict [("$module", .str "pygot.serialisation"),
                ("$type", .str "date_time"),
                ("year", .int s.1.year), ("month", .int s.1.month),
                ("day", .int s.1.day),
                ("hour", .int (s.2.1 / 3600000000)),
                ("minute", .int (s.2.1 / 60000000 % 60)),
                ("second", .int (s.2.1 / 1000000 % 60)),
                ("microsecond", .int (s.2.1 % 1000000)),
                ("timezone",
                  -- `obj.tzinfo.zone if obj.tzinfo else None`; after the two
                  -- normalisations the timezone is `None` or `pytz.utc`
                  match s.2.2 with
                  | .noTz => PyVal.none
                  | _ => .str "UTC")])
  | .static cm cn mn sfs => do
    -- d = {f: getattr(obj, f) for f in obj.__static_fields__}
    -- d['name'] = obj.__name__
    -- d = serialisation.jsonify(d, ...)
    -- (the recursive call on the synthesised dict is inlined: its values are
    -- encoded, the dict is rebuilt and, with camel casing, re-keyed; the
    -- 'name' entry is a string, which encodes to itself)
    let vs ← jsonifyValues camel arg sfs
    let d := dictInsert (fromPairs vs) "name" (.str mn)
    let d ← if camel then camelRekey d else pure d
    if arg then
      -- d[serialisation.MODULE_KEY] = type(obj).__module__
      match serialisationKeyAttr "MODULE_KEY" with
      | some mk =>
        match serialisationKeyAttr "NAME_KEY" with
        | some nk => pure (.dict (dictInsert (dictInsert d mk (.str cm)) nk (.str cn)))
        | Option.none =>
          .error (.attributeError
            "module pygot.serialisation has no attribute NAME_KEY")
      | Option.none =>
        .error (.attributeError
          "module pygot.serialisation has no attribute MODULE_KEY")
    else pure (.dict d)

/-- `_jsonify_sequence`: element-wise encoding (tuples also yield lists). -/
def jsonifyList (camel arg : Bool) : List PyVal → Except PyErr (List PyVal)
  | [] => .ok []
  | x :: xs => do
    let x' ← jsonify camel arg x
    let xs' ← jsonifyList camel arg xs
    pure (x' :: xs')

/-- The value half of `_jsonify_mapping`'s comprehension
`{_j(k): _j(v) for k, v in obj.items()}`: string keys encode to themselves,
values are encoded recursively. -/
def jsonifyValues (camel arg : Bool) :
    List (String × PyVal) → Except PyErr (List (String × PyVal))
  | [] => .ok []
  | (k, v) :: rest => do
    let v' ← jsonify camel arg v
    let rest' ← jsonifyValues camel arg rest
    pure ((k, v') :: rest')

/-- The field loop of `_jsonify_dataclass`: each field name is camel-cased
(when requested) and its value encoded, in declared field order. -/
def jsonifyFields (camel arg : Bool) :
    List (String × PyVal) → Except PyErr (List (String × PyVal))
  | [] => .ok []
  | (k, v) :: rest => do
    let k' ← if camel then camel_case k else pure k
    let v' ← jsonify camel arg v
    let rest' ← jsonifyFields camel arg rest
    pure ((k', v') :: rest')

end

/-! ### Type resolution and the structural decoder (`serialisation.unjsonify`) -/

/-- The entities `unjsonify` can resolve a `($module, $type)` pair to, as
distinguished by its dispatch chain: a plain dataclass (constructed by
keyword with its declared field list), the `float` builtin, or the
`pygot.serialisation.date_time` helper.  (`JSONMixin` and `Enum` carriers are
not needed by any claim.) -/
inductive Resolved where
  | dataclassCtor (module name : String) (fields : List String) : Resolved
  | floatType : Resolved
  | dateTimeFn : Resolved
  deriving DecidableEq, Repr

/-- The import environment: which `(module, name)` pairs
`getattr(importlib.import_module(module), name)` can resolve, and to what. -/
def Env := List ((String × String) × Resolved)

/-- `getattr(importlib.import_module(module), name)`, `none` when either
the module import or the attribute lookup fails. -/
def resolveEnv (env : Env) (m n : String) : Option Resolved :=
  List.lookup (m, n) env

/-- The message text of an exception. -/
def pyErrMsg : PyErr → String
  | .valueError m => m
  | .typeError m => m
  | .attributeError m => m
  | .keyError m => m
  | .staticTypeConflict m => m
  | .staticInstanceConflict m => m
  | .expectedStaticAttr m => m
  | .unexpectedStaticAttr m => m

/-- `module.pop(...)` hands back `None` both for an absent key and for a
stored `None`; `unjsonify` treats the two identically
(`if module is None or name is None`). -/
def noneToAbsent : Option PyVal → Option PyVal
  | some .none => Option.none
  | o => o

/-- `float(s)` on the strings the encoder emits for float special values.
(Numeric literals such as `"1.5"` would also parse in Python, but the tagged
float encoding only ever carries `"nan"`, `"+inf"` or `"-inf"`.) -/
def pyFloatFromString : String → Except PyErr PFloat
  | "nan" => .ok .nan
  | "+inf" => .ok (.inf true)
  | "-inf" => .ok (.inf false)
  | s => .error (.valueError ("could not convert string to float: " ++ s))

/-- The keyword dict passed to the resolved constructor: with camel casing
the keys are converted back by `snake_case` first.  The conversion happens
inside the decoder's `try`, so a conversion failure surfaces as the
"Bad arguments" `ValueError`. -/
def kwargsKeys (camel : Bool) (callee : String) (mapping : List (String × PyVal)) :
    Except PyErr (List (String × PyVal)) :=
  if camel then
    match mapping.mapM (fun kv => (snake_case kv.1).map (fun k => (k, kv.2))) with
    | .ok ps => .ok (fromPairs ps)
    | .error e => .error (.valueError ("Bad arguments for " ++ callee ++ ": " ++ pyErrMsg e))
  else .ok mapping

/-- `cls(**kwargs)` for a plain dataclass: the generated `__init__` demands
exactly the declared fields (fields with defaults are not modelled); any
mismatch raises a `TypeError`, re-raised by the decoder as the
"Bad arguments" `ValueError`.  The constructed value carries the class's own
`__module__`/`__name__` and its fields in declared order. -/
def dataclassCall (dm dn : String) (dfields : List String)
    (kwargs : List (String × PyVal)) : Except PyErr PyVal :=
  if kwargs.all (fun kv => dfields.contains kv.1) then
    match dfields.mapM (fun f => (List.lookup f kwargs).map (fun v => (f, v))) with
    | some fs => .ok (.dataclass dm dn fs)
    | Option.none =>
      .error (.valueError ("Bad arguments for " ++ dm ++ "." ++ dn ++
        ": missing required positional argument"))
  else
    .error (.valueError ("Bad arguments for " ++ dm ++ "." ++ dn ++
      ": unexpected keyword argument"))

/-- The parameters of `serialisation.date_time`. -/
def dateTimeParams : List String :=
  ["year", "month", "day", "hour", "minute", "second", "microsecond", "timezone"]

/-- The component validation performed by the `datetime.datetime`
constructor (`MINYEAR`/`MAXYEAR`, month, day-of-month, time-of-day ranges). -/
def dtComponentsOk (y mo da h mi se us : Int) : Bool :=
  1 ≤ y && y ≤ 9999 && 1 ≤ mo && mo ≤ 12 && 1 ≤ da &&
    da ≤ (daysInMonth y.toNat mo.toNat : Int) && 0 ≤ h && h < 24 &&
    0 ≤ mi && mi < 60 && 0 ≤ se && se < 60 && 0 ≤ us && us < 1000000

/-- `date_time(**kwargs)`: bind the eight parameters, build the naive
`datetime.datetime` (validating component ranges) and localise it via
`pytz.timezone`.  Every failure inside the decoder's `try` is re-raised as
the "Bad arguments" `ValueError`.  Only the zone string `"UTC"` is modelled
(`pytz.timezone('UTC') is pytz.utc`); other tzdata zone names are outside
the model. -/
def dateTimeCall (kwargs : List (String × PyVal)) : Except PyErr PyVal :=
  let bad : Except PyErr PyVal :=
    .error (.valueError "Bad arguments for pygot.serialisation.date_time: bad call")
  if kwargs.all (fun kv => dateTimeParams.contains kv.1) then
    match List.lookup "year" kwargs, List.lookup "month" kwargs,
        List.lookup "day" kwargs, List.lookup "hour" kwargs,
        List.lookup "minute" kwargs, List.lookup "second" kwargs,
        List.lookup "microsecond" kwargs, List.lookup "timezone" kwargs with
    | some (.int y), some (.int mo), some (.int da), some (.int h),
        some (.int mi), some (.int se), some (.int us), some tzv =>
      if dtComponentsOk y mo da h mi se us then
        let dt : DateC := ⟨y.toNat, mo.toNat, da.toNat⟩
        let tod : Nat := h.toNat * 3600000000 + mi.toNat * 60000000 +
          se.toNat * 1000000 + us.toNat
        match tzv with
        | .none => .ok (.pydatetime dt tod .noTz)
        | .str z =>
          if z = "UTC" then .ok (.pydatetime dt tod .pytzUtc)
          else .error (.valueError ("timezone database zone not modelled: " ++ z))
        | _ => bad
      else bad
    | _, _, _, _, _, _, _, _ => bad
  else bad

/-- Dispatch on the resolved entity (`unjsonify` lines 376-395): `float`
takes the `x` entry (a plain `KeyError`/`ValueError` if malformed, outside
the `try`); everything else is constructed by keyword. -/
def dispatchResolved (camel : Bool) (r : Resolved)
    (mapping : List (String × PyVal)) : Except PyErr PyVal :=
  match r with
  | .floatType =>
    match List.lookup "x" mapping with
    | Option.none => .error (.keyError "x")
    | some (.str s) => (pyFloatFromString s).map PyVal.float
    | some _ => .error (.typeError "float() argument must be a string or a number")
  | .dataclassCtor dm dn dfields => do
    let kwargs ← kwargsKeys camel (dm ++ "." ++ dn) mapping
    dataclassCall dm dn dfields kwargs
  | .dateTimeFn => do
    let kwargs ← kwargsKeys camel "pygot.serialisation.date_time" mapping
    dateTimeCall kwargs

/-- `{snake_case(k) if isinstance(k, str) else k: v for k, v in
mapping.items()}` (plain-mapping branch of `unjsonify`). -/
def snakeRekey (d : List (String × PyVal)) : Except PyErr (List (String × PyVal)) := do
  let ps ← d.mapM (fun kv => do pure (← snake_case kv.1, kv.2))
  pure (fromPairs ps)

mutual

/-- `serialisation.unjsonify`: scalars pass through, sequences decode
element-wise, mappings decode their values, pop the two reserved keys and
either return a plain mapping (snake-cased keys if requested) or resolve the
tag and construct the named type.  Unrecognised values (the final warning
branch) pass through unchanged. -/
def unjsonify (env : Env) (camel : Bool) : PyVal → Except PyErr PyVal
  | .none => .ok .none
  | .bool b => .ok (.bool b)
  | .int n => .ok (.int n)
  | .float f => .ok (.float f)
  | .str s => .ok (.str s)
  | .list xs => do
    pure (.list (← unjsonifyList env camel xs))
  | .dict es => do
    -- mapping = {_uj(k): _uj(v) for k, v in json.items()}
    -- (string keys decode to themselves)
    let dec ← unjsonifyValues env camel es
    let mapping := fromPairs dec
    let p1 := dictPop "$module" mapping
    let p2 := dictPop "$type" p1.2
    match noneToAbsent p1.1, noneToAbsent p2.1 with
    | some mV, some nV =>
      (match mV, nV with
       | .str mS, .str nS =>
         (match resolveEnv env mS nS with
          | Option.none =>
            .error (.valueError ("Could not locate: " ++ mS ++ "." ++ nS))
          | some r => dispatchResolved camel r p2.2)
       | _, _ => .error (.typeError "import_module() argument must be str"))
    | _, _ =>
      if camel then do
        pure (.dict (← snakeRekey p2.2))
      else pure (.dict p2.2)
  | .dataclass m t fs => .ok (.dataclass m t fs)
  | .pydatetime d tod tz => .ok (.pydatetime d tod tz)
  | .static cm cn mn sfs => .ok (.static cm cn mn sfs)

/-- Element-wise decoding of a sequence. -/
def unjsonifyList (env : Env) (camel : Bool) : List PyVal → Except PyErr (List PyVal)
  | [] => .ok []
  | x :: xs => do
    let x' ← unjsonify env camel x
    let xs' ← unjsonifyList env camel xs
    pure (x' :: xs')

/-- The value half of the mapping comprehension in `unjsonify`. -/
def unjsonifyValues (env : Env) (camel : Bool) :
    List (String × PyVal) → Except PyErr (List (String × PyVal))
  | [] => .ok []
  | (k, v) :: rest => do
    let v' ← unjsonify env camel v
    let rest' ← unjsonifyValues env camel rest
    pure ((k, v') :: rest')

end

/-! ### Python value equality (`==`)

Used by `StaticData.__new__` to compare a supplied class dict with the
existing member's fixed fields.  Mirrors Python `==` on the modelled values:
dict comparison is order-insensitive, `nan` compares unequal to everything
(itself included).  Cross-type numeric equality (`True == 1`,
`-0.0 == 0.0`) is not modelled. -/

mutual

def pyValEq : PyVal → PyVal → Bool
  | .none, .none => true
  | .bool a, .bool b => a == b
  | .int a, .int b => a == b
  | .float a, .float b =>
    (match a, b with
     | .nan, _ => false
     | _, .nan => false
     | .inf p, .inf q => p == q
     | .finite x, .finite y => x == y
     | _, _ => false)
  | .str a, .str b => a == b
  | .list xs, .list ys => pyListEq xs ys
  | .dict xs, .dict ys =>
    xs.length == ys.length && pyDictSub xs ys
  | .dataclass m t fs, .dataclass m' t' fs' =>
    m == m' && t == t' && pyPairsEq fs fs'
  | .pydatetime d tod tz, .pydatetime d' tod' tz' =>
    d == d' && tod == tod' && tz == tz'
  | .static a b c fs, .static a' b' c' fs' =>
    a == a' && b == b' && c == c' && pyPairsEq fs fs'
  | _, _ => false

def pyListEq : List PyVal → List PyVal → Bool
  | [], [] => true
  | x :: xs, y :: ys => pyValEq x y && pyListEq xs ys
  | _, _ => false
termination_by structural a _ => a

/-- One direction of dict `==`: every entry of the first dict is matched by
an `==`-equal value at the same key in the second.  Together with equal
lengths (and the distinct-keys dict invariant) this is Python dict
equality. -/
def pyDictSub : List (String × PyVal) → List (String × PyVal) → Bool
  | [], _ => true
  | (k, v) :: xs, ys =>
    (match List.lookup k ys with
     | some w => pyValEq v w
     | Option.none => false) && pyDictSub xs ys
termination_by structural a _ => a

def pyPairsEq : List (String × PyVal) → List (String × PyVal) → Bool
  | [], [] => true
  | (k, v) :: xs, (k', v') :: ys => k == k' && pyValEq v v' && pyPairsEq xs ys
  | _, _ => false
termination_by structural a _ => a

end

/-- Python `==` on two (string-keyed) dicts. -/
def pyDictEqB (a b : List (String × PyVal)) : Bool :=
  pyValEq (.dict a) (.dict b)

/-! ### The static catalog registry (`pygot/static.py`) -/

/-- A registered member of a static data category: carrier of the member
name, the fixed (`__static_fields__`) values and the remaining (mutable,
dataclass) field names. -/
structure StaticMember where
  memberName : String
  staticFields : List (String × PyVal)
  dynamicFields : List String
  deriving Repr

/-- A static data category (an instance of the `StaticData` metaclass): its
declared attributes (name, whether the declaration marks the attribute
`STATIC`) and its member registry, keyed by lowercased member name. -/
structure StaticCategory where
  catName : String
  annots : List (String × Bool)
  registry : List (String × StaticMember)
  deriving Repr

/-- `str.lower` (ASCII; registry keys and case conversion inputs). -/
def pyLower (s : String) : String := String.mk (s.toList.map Char.toLower)

/-- `s.startswith('_')`: whether the first character is an underscore. -/
def pyStartsUnderscore (s : String) : Bool :=
  match s.toList with
  | [] => false
  | c :: _ => c = '_'


/-- `StaticData.__new__` (`pygot/static.py` lines 190-269): create (or
idempotently fetch) a member of `cat` called `name` from the supplied class
dict.  Returns the member and the updated category. -/
def staticNew (cat : StaticCategory) (name : String)
    (classDict : List (String × PyVal)) :
    Except PyErr (StaticMember × StaticCategory) :=
  -- Check for existing name (case-insensitive `__contains__`/`__getattr__`)
  match List.lookup (pyLower name) cat.registry with
  | some existing =>
    -- existing_class_dict = {k: getattr(existing, k)
    --                        for k in existing.__static_fields__}
    if pyDictEqB classDict existing.staticFields then .ok (existing, cat)
    else .error (.staticInstanceConflict ("Could not create " ++ name ++ ", name in use"))
  | Option.none =>
    -- Sort out attributes (underscore-prefixed annotations are skipped)
    let static_attrs :=
      (cat.annots.filter fun ab => !pyStartsUnderscore ab.1 && ab.2).map Prod.fst
    let dynamic_attrs :=
      (cat.annots.filter fun ab => !pyStartsUnderscore ab.1 && !ab.2).map Prod.fst
    let dictKeys := classDict.map Prod.fst
    -- Check for missing and unexpected attrs
    let missing := static_attrs.filter fun a => !dictKeys.contains a
    if missing ≠ [] then
      .error (.expectedStaticAttr ("Could not create " ++ name ++ ", expected attr"))
    else
      let unexpected := dictKeys.filter fun k => dynamic_attrs.contains k
      if unexpected ≠ [] then
        .error (.unexpectedStaticAttr ("Could not create " ++ name ++ ", unexpected attr"))
      else
        -- Extend static attrs with additional class_dict values
        let full_static := static_attrs ++ dictKeys.filter fun k =>
          !dynamic_attrs.contains k && !pyStartsUnderscore k && !static_attrs.contains k
        let member : StaticMember :=
          ⟨name, full_static.map fun f => (f, (List.lookup f classDict).getD .none),
            dynamic_attrs⟩
        .ok (member, { cat with registry := cat.registry ++ [(pyLower name, member)] })

/-- An instance of a member class (the half-frozen dataclass): the class and
the instance's own attribute dict. -/
structure StaticInstance where
  cls : StaticMember
  slots : List (String × PyVal)
  deriving Repr

/-- The generated `__setattr__` (`pygot/static.py` lines 251-256): fixed
attributes are frozen, anything else is stored on the instance. -/
def staticSetattr (inst : StaticInstance) (attr : String) (v : PyVal) :
    Except PyErr StaticInstance :=
  if (inst.cls.staticFields.map Prod.fst).contains attr then
    .error (.attributeError ("Frozen attribute: " ++ attr))
  else .ok { inst with slots := dictInsert inst.slots attr v }

/-- Instance attribute read: the instance dict shadows the class's fixed
fields. -/
def staticGetattr (inst : StaticInstance) (attr : String) : Except PyErr PyVal :=
  match List.lookup attr inst.slots with
  | some v => .ok v
  | Option.none =>
    match List.lookup attr inst.cls.staticFields with
    | some v => .ok v
    | Option.none => .error (.attributeError attr)

/-! ### Specification-side definitions

`snakeSpecGo` restates the case-conversion algorithm in the words of the
specification (for the refinement claim about `snake_case`); the
`roundSafe` predicates describe the value domain of the encode/decode
round-trip claim. -/

/-- One step of the algorithm exactly as the specification states it: an
uppercase letter is lowered, and prefixed with an underscore when it starts
a new word, i.e. when the immediately preceding character exists and is not
uppercase (a run starting at the start of the string gets no prefix, per the
specification's own examples); every other character passes through
unchanged. -/
def snakeSpecStep : Option Char → Char → List Char
  | Option.none, c => if pyIsUpper c then [c.toLower] else [c]
  | some p, c =>
    if pyIsUpper c then (if !pyIsUpper p then ['_'] else []) ++ [c.toLower]
    else [c]

/-- The specification's conversion algorithm, walking the string while
remembering the previous character. -/
def snakeSpecGo : Option Char → List Char → List Char
  | _, [] => []
  | prev, c :: cs => snakeSpecStep prev c ++ snakeSpecGo (some c) cs

/-- A valid identifier in the converters' sense. -/
def validIdent (s : String) : Bool := s.toList.all allowedChar

/-- A key that survives the camel-case round trip:
`snake_case(camel_case(k)) = k`. -/
def keyRT (s : String) : Bool :=
  match camel_case s with
  | .ok t =>
    (match snake_case t with
     | .ok u => u == s
     | .error _ => false)
  | .error _ => false

/-- A mapping key that decodes back to itself: not a reserved tag key, and,
when camel casing is on, stable under the camel/snake round trip. -/
def goodKey (camel : Bool) (s : String) : Bool :=
  !(s == "$module") && !(s == "$type") && (!camel || keyRT s)

/-- A dataclass field name that decodes back to itself: a valid identifier
(Python guarantees this) that, when camel casing is on, is stable under the
camel/snake round trip. -/
def goodFieldName (camel : Bool) (s : String) : Bool :=
  validIdent s && (!camel || keyRT s)

/-- The camel-case image of a key (total; meaningful on keys where
`camel_case` succeeds, which `keyRT` guarantees). -/
def camelOf (s : String) : String :=
  match camel_case s with
  | .ok t => t
  | .error _ => s

mutual

/-- A value in the specification's JSON-safe space (string, int, finite
float, bool, null, sequence, string-keyed mapping — NaN and the infinities
are excluded by §3's strict-JSON invariant) whose mapping keys moreover
decode back to themselves (`goodKey`).  `camel` is the key-casing setting
the round trip is taken at. -/
def roundSafe (camel : Bool) : PyVal → Bool
  | .none => true
  | .bool _ => true
  | .int _ => true
  | .str _ => true
  | .float f => (match f with | .finite _ => true | _ => false)
  | .list xs => roundSafeList camel xs
  | .dict es => decide ((es.map Prod.fst).Nodup) && roundSafePairs camel es
  | .dataclass _ _ _ => false
  | .pydatetime _ _ _ => false
  | .static _ _ _ _ => false

def roundSafeList (camel : Bool) : List PyVal → Bool
  | [] => true
  | x :: xs => roundSafe camel x && roundSafeList camel xs

def roundSafePairs (camel : Bool) : List (String × PyVal) → Bool
  | [] => true
  | (k, v) :: rest => goodKey camel k && roundSafe camel v && roundSafePairs camel rest

end

/-- The round-trip property itself: encoding with type tags succeeds and
decoding the result restores the value. -/
def RT (env : Env) (camel : Bool) (v : PyVal) : Prop :=
  ∃ w, jsonify camel true v = .ok w ∧ unjsonify env camel w = .ok v

/-- The continuation of `unjsonify`'s mapping arm after the entry values
have been decoded (factored out verbatim so the round-trip lemmas can
reason about it once the value decoding is rewritten away): rebuild the
dict, pop the two reserved keys, then either resolve the tag or return a
plain mapping. -/
def uDictRest (env : Env) (camel : Bool) (dec : List (String × PyVal)) :
    Except PyErr PyVal :=
  let mapping := fromPairs dec
  let p1 := dictPop "$module" mapping
  let p2 := dictPop "$type" p1.2
  match noneToAbsent p1.1, noneToAbsent p2.1 with
  | some mV, some nV =>
    (match mV, nV with
     | .str mS, .str nS =>
       (match resolveEnv env mS nS with
        | Option.none =>
          .error (.valueError ("Could not locate: " ++ mS ++ "." ++ nS))
        | some r => dispatchResolved camel r p2.2)
     | _, _ => .error (.typeError "import_module() argument must be str"))
  | _, _ =>
    if camel then do
      pure (.dict (← snakeRekey p2.2))
    else pure (.dict p2.2)

/-! ## Supporting lemmas -/

theorem dictInsert_append : ∀ (d : List (String × PyVal)) (k : String) (v : PyVal),
    k ∉ d.map Prod.fst → dictInsert d k v = d ++ [(k, v)]
  | [], _, _, _ => rfl
  | (k', v') :: rest, k, v, h => by
    simp only [List.map_cons, List.mem_cons, not_or] at h
    rw [dictInsert, if_neg (fun hh => h.1 hh.symm), dictInsert_append rest k v h.2]
    rfl

theorem fromPairs_aux : ∀ (ps acc : List (String × PyVal)),
    ((acc ++ ps).map Prod.fst).Nodup →
    ps.foldl (fun a kv => dictInsert a kv.1 kv.2) acc = acc ++ ps
  | [], acc, _ => by simp
  | (k, v) :: ps, acc, h => by
    have hk : k ∉ acc.map Prod.fst := by
      intro hmem
      have : ¬ (acc.map Prod.fst).Disjoint (((k, v) :: ps).map Prod.fst) := by
        intro hd
        exact hd hmem (by simp)
      simp only [List.map_append, List.nodup_append] at h
      exact this h.2.2
    rw [List.foldl_cons]
    have : dictInsert acc k v = acc ++ [(k, v)] := dictInsert_append acc k v hk
    rw [this, fromPairs_aux ps (acc ++ [(k, v)]) (by simpa using h)]
    simp

theorem fromPairs_eq {ps : List (String × PyVal)} (h : (ps.map Prod.fst).Nodup) :
    fromPairs ps = ps :=
  fromPairs_aux ps [] (by simpa using h)

theorem dictPop_fst : ∀ (k : String) (d : List (String × PyVal)),
    (dictPop k d).1 = List.lookup k d
  | _, [] => rfl
  | k, (k', v) :: rest => by
    by_cases hk : k' = k
    · subst hk; simp [dictPop, List.lookup]
    · have hbeq : (k == k') = false := beq_false_of_ne fun hh => hk hh.symm
      simp [dictPop, hk, List.lookup, hbeq, dictPop_fst k rest]

theorem dictPop_not_mem : ∀ {k : String} {d : List (String × PyVal)},
    k ∉ d.map Prod.fst → dictPop k d = (Option.none, d)
  | _, [], _ => rfl
  | k, (k', v) :: rest, h => by
    simp only [List.map_cons, List.mem_cons, not_or] at h
    have hk : ¬ k' = k := fun hh => h.1 hh.symm
    simp [dictPop, hk, dictPop_not_mem h.2]

theorem dictPop_append_left : ∀ {k : String} {a b : List (String × PyVal)},
    k ∉ a.map Prod.fst →
    dictPop k (a ++ b) = ((dictPop k b).1, a ++ (dictPop k b).2)
  | _, [], _, _ => rfl
  | k, (k', v) :: a, b, h => by
    simp only [List.map_cons, List.mem_cons, not_or] at h
    have hk : ¬ k' = k := fun hh => h.1 hh.symm
    have ih := dictPop_append_left (k := k) (a := a) (b := b) h.2
    simp [dictPop, hk, ih]

theorem lookup_dictPop_ne : ∀ {k k' : String} {d : List (String × PyVal)}, k ≠ k' →
    List.lookup k (dictPop k' d).2 = List.lookup k d
  | _, _, [], _ => rfl
  | k, k', (k'', v) :: rest, h => by
    by_cases hk : k'' = k'
    · subst hk
      have hbeq : (k == k'') = false := beq_false_of_ne h
      simp [dictPop, List.lookup, hbeq]
    · simp only [dictPop, if_neg hk]
      by_cases hkk : k = k''
      · subst hkk; simp [List.lookup]
      · have hbeq : (k == k'') = false := beq_false_of_ne hkk
        simp [List.lookup, hbeq, lookup_dictPop_ne h]

theorem lookup_eq_none_iff {β : Type} {k : String} {d : List (String × β)} :
    List.lookup k d = Option.none ↔ k ∉ d.map Prod.fst := by
  induction d with
  | nil => simp
  | cons kv rest ih =>
    obtain ⟨k', v⟩ := kv
    by_cases hk : k = k'
    · subst hk; simp [List.lookup]
    · simp [List.lookup, beq_false_of_ne hk, ih, hk]

theorem lookup_dictInsert_self : ∀ (d : List (String × PyVal)) (k : String) (v : PyVal),
    List.lookup k (dictInsert d k v) = some v
  | [], k, v => by simp [dictInsert, List.lookup]
  | (k', v') :: rest, k, v => by
    by_cases hk : k' = k
    · subst hk; simp [dictInsert, List.lookup]
    · have hbeq : (k == k') = false := beq_false_of_ne fun hh => hk hh.symm
      simp [dictInsert, hk, List.lookup, hbeq, lookup_dictInsert_self rest k v]

theorem nodup_keys_pair_eq {β : Type} {l : List (String × β)}
    (h : (l.map Prod.fst).Nodup) {a b : String × β} (ha : a ∈ l) (hb : b ∈ l)
    (he : a.1 = b.1) : a = b := by
  induction l with
  | nil => cases ha
  | cons kv rest ih =>
    simp only [List.map_cons, List.nodup_cons] at h
    rcases List.mem_cons.1 ha with rfl | ha' <;> rcases List.mem_cons.1 hb with hb' | hb'
    · exact hb'.symm
    · have hmem : a.1 ∈ List.map Prod.fst rest := by
        rw [he]; exact List.mem_map_of_mem Prod.fst hb'
      exact absurd hmem h.1
    · have hbk : b.1 ∉ List.map Prod.fst rest := by rw [hb']; exact h.1
      have hmem : b.1 ∈ List.map Prod.fst rest := by
        rw [← he]; exact List.mem_map_of_mem Prod.fst ha'
      exact absurd hmem hbk
    · exact ih h.2 ha' hb'

theorem lookup_of_mem_nodup {β : Type} : ∀ {l : List (String × β)} {k : String} {v : β},
    (l.map Prod.fst).Nodup → (k, v) ∈ l → List.lookup k l = some v
  | [], _, _, _, hm => absurd hm (List.not_mem_nil _)
  | (k', v') :: rest, k, v, h, hm => by
    simp only [List.map_cons, List.nodup_cons] at h
    rcases List.mem_cons.1 hm with h1 | h2
    · obtain ⟨rfl, rfl⟩ : k = k' ∧ v = v' := by simpa [Prod.ext_iff] using h1
      simp [List.lookup]
    · have hk : k ≠ k' := by
        rintro rfl
        exact h.1 (List.mem_map_of_mem Prod.fst h2)
      have hbeq : (k == k') = false := beq_false_of_ne hk
      simp [List.lookup, hbeq, lookup_of_mem_nodup h.2 h2]

theorem staticNew_dynamic_not_static
    {cat : StaticCategory} {name : String} {classDict : List (String × PyVal)}
    {M : StaticMember} {cat' : StaticCategory} {attr : String}
    (hnodup : (cat.annots.map Prod.fst).Nodup)
    (hfresh : List.lookup (pyLower name) cat.registry = Option.none)
    (hnew : staticNew cat name classDict = .ok (M, cat'))
    (hmem : attr ∈ M.dynamicFields) :
    attr ∉ M.staticFields.map Prod.fst := by
  simp only [staticNew, hfresh] at hnew
  split at hnew
  case isTrue h1 => simp at hnew
  case isFalse h1 =>
    split at hnew
    case isTrue h2 => simp at hnew
    case isFalse h2 =>
      simp only [Except.ok.injEq, Prod.mk.injEq] at hnew
      obtain ⟨hM, hcat⟩ := hnew
      subst hM
      simp only [List.map_map] at hmem ⊢
      have hid : (Prod.fst ∘ fun f : String => (f, (List.lookup f classDict).getD PyVal.none)) = id := rfl
      rw [hid, List.map_id]
      intro hin
      rcases List.mem_append.1 hin with hs | he
      · obtain ⟨ab, habf, habfst⟩ := List.mem_map.1 hs
        obtain ⟨ab', habf', habfst'⟩ := List.mem_map.1 hmem
        have hm1 := List.mem_filter.1 habf
        have hm2 := List.mem_filter.1 habf'
        have heq : ab = ab' := nodup_keys_pair_eq hnodup hm1.1 hm2.1 (by rw [habfst, habfst'])
        have hb1 : ab.2 = true := by
          have := hm1.2; simp only [Bool.and_eq_true] at this; exact this.2
        have hb2 : ab'.2 = false := by
          have := hm2.2
          simp only [Bool.and_eq_true, Bool.not_eq_true'] at this
          exact this.2
        rw [heq, hb2] at hb1
        exact absurd hb1 (by simp)
      · have hcond := (List.mem_filter.1 he).2
        simp only [Bool.and_eq_true, Bool.not_eq_true'] at hcond
        have hA : (List.map Prod.fst
            (List.filter (fun ab => !pyStartsUnderscore ab.1 && !ab.2) cat.annots)).contains attr
            = false := hcond.1.1
        have hB : (List.map Prod.fst
            (List.filter (fun ab => !pyStartsUnderscore ab.1 && !ab.2) cat.annots)).contains attr
            = true := by simpa using hmem
        rw [hA] at hB
        exact absurd hB (by simp)

theorem unjsonifyValues_forall₂ {env : Env} {camel : Bool} :
    ∀ {es dec : List (String × PyVal)},
    List.Forall₂ (fun p q : String × PyVal =>
      p.1 = q.1 ∧ unjsonify env camel p.2 = .ok q.2) es dec →
    unjsonifyValues env camel es = .ok dec := by
  intro es dec h
  induction h with
  | nil => rfl
  | cons h1 h2 ih =>
    rename_i a b l1 l2
    obtain ⟨k, v⟩ := a
    obtain ⟨k', v'⟩ := b
    obtain ⟨hk, hv⟩ := h1
    simp only at hk hv
    subst hk
    simp only [unjsonifyValues, hv, ih]
    rfl

theorem keyRT_spec {k : String} (h : keyRT k = true) :
    camel_case k = .ok (camelOf k) ∧ snake_case (camelOf k) = .ok k := by
  unfold keyRT at h
  unfold camelOf
  cases hc : camel_case k with
  | error e => rw [hc] at h; cases h
  | ok t =>
    rw [hc] at h
    have h' : (match snake_case t with
      | Except.ok u => u == k
      | Except.error _ => false) = true := h
    refine ⟨rfl, ?_⟩
    cases hs : snake_case t with
    | error e => rw [hs] at h'; cases h'
    | ok u =>
      rw [hs] at h'
      have : u = k := by simpa using h'
      rw [this]

theorem camelOf_ne_reserved {k : String} (h : keyRT k = true) :
    camelOf k ≠ "$module" ∧ camelOf k ≠ "$type" := by
  obtain ⟨_, h2⟩ := keyRT_spec h
  constructor <;> intro he <;> rw [he] at h2
  · have h3 : snake_case "$module"
        = .error (.valueError "Identifiers must only have ASCII characters") := rfl
    rw [h3] at h2
    cases h2
  · have h3 : snake_case "$type"
        = .error (.valueError "Identifiers must only have ASCII characters") := rfl
    rw [h3] at h2
    cases h2

theorem validIdent_ne_reserved {k : String} (h : validIdent k = true) :
    k ≠ "$module" ∧ k ≠ "$type" := by
  constructor <;> rintro rfl <;> exact absurd h (by decide)

theorem goodKey_parts {camel : Bool} {k : String} (h : goodKey camel k = true) :
    k ≠ "$module" ∧ k ≠ "$type" ∧ (camel = true → keyRT k = true) := by
  unfold goodKey at h
  simp only [Bool.and_eq_true, Bool.not_eq_true', beq_eq_false_iff_ne, ne_eq,
    Bool.or_eq_true, Bool.not_eq_true] at h
  refine ⟨h.1.1, h.1.2, fun hc => ?_⟩
  rcases h.2 with h2 | h2
  · rw [hc] at h2; cases h2
  · exact h2

theorem goodFieldName_parts {camel : Bool} {k : String}
    (h : goodFieldName camel k = true) :
    validIdent k = true ∧ (camel = true → keyRT k = true) := by
  unfold goodFieldName at h
  simp only [Bool.and_eq_true, Bool.or_eq_true, Bool.not_eq_true] at h
  refine ⟨h.1, fun hc => ?_⟩
  rcases h.2 with h2 | h2
  · rw [hc] at h2; cases h2
  · exact h2

theorem roundSafeList_iff {camel : Bool} : ∀ {xs : List PyVal},
    roundSafeList camel xs = true ↔ ∀ x ∈ xs, roundSafe camel x = true
  | [] => by simp [roundSafeList]
  | x :: xs => by
    rw [roundSafeList, Bool.and_eq_true, roundSafeList_iff]
    simp

theorem roundSafePairs_iff {camel : Bool} : ∀ {es : List (String × PyVal)},
    roundSafePairs camel es = true ↔
      ∀ kv ∈ es, goodKey camel kv.1 = true ∧ roundSafe camel kv.2 = true
  | [] => by simp [roundSafePairs]
  | (k, v) :: es => by
    rw [roundSafePairs, Bool.and_eq_true, Bool.and_eq_true, roundSafePairs_iff]
    constructor
    · rintro ⟨⟨h1, h2⟩, h3⟩ kv hkv
      rcases List.mem_cons.1 hkv with rfl | hm
      · exact ⟨h1, h2⟩
      · exact h3 kv hm
    · intro h
      exact ⟨h (k, v) (List.mem_cons_self _ _), fun kv hm => h kv (List.mem_cons_of_mem _ hm)⟩

theorem forall2_dec_keys {env : Env} {camel : Bool} :
    ∀ {a b : List (String × PyVal)},
    List.Forall₂ (fun p q : String × PyVal =>
      p.1 = q.1 ∧ unjsonify env camel p.2 = .ok q.2) a b →
    a.map Prod.fst = b.map Prod.fst := by
  intro a b h
  induction h with
  | nil => rfl
  | cons h1 h2 ih => simp only [List.map_cons, h1.1, ih]

theorem forall2_dec_rekey {env : Env} {camel : Bool} (g : String → String) :
    ∀ {a b : List (String × PyVal)},
    List.Forall₂ (fun p q : String × PyVal =>
      p.1 = q.1 ∧ unjsonify env camel p.2 = .ok q.2) a b →
    List.Forall₂ (fun p q : String × PyVal =>
      p.1 = q.1 ∧ unjsonify env camel p.2 = .ok q.2)
      (a.map (fun kv => (g kv.1, kv.2))) (b.map (fun kv => (g kv.1, kv.2))) := by
  intro a b h
  induction h with
  | nil => exact List.Forall₂.nil
  | cons h1 h2 ih => exact List.Forall₂.cons ⟨by simp [h1.1], h1.2⟩ ih

theorem forall2_dec_append {env : Env} {camel : Bool}
    {a b c d : List (String × PyVal)}
    (h1 : List.Forall₂ (fun p q : String × PyVal =>
      p.1 = q.1 ∧ unjsonify env camel p.2 = .ok q.2) a b)
    (h2 : List.Forall₂ (fun p q : String × PyVal =>
      p.1 = q.1 ∧ unjsonify env camel p.2 = .ok q.2) c d) :
    List.Forall₂ (fun p q : String × PyVal =>
      p.1 = q.1 ∧ unjsonify env camel p.2 = .ok q.2) (a ++ c) (b ++ d) := by
  induction h1 with
  | nil => exact h2
  | cons hh ht ih => exact List.Forall₂.cons hh ih

theorem camel_mapM_eq : ∀ {d : List (String × PyVal)},
    (∀ k ∈ d.map Prod.fst, keyRT k = true) →
    d.mapM (fun kv => do pure (← camel_case kv.1, kv.2))
      = Except.ok (d.map (fun kv => (camelOf kv.1, kv.2)))
  | [], _ => rfl
  | (k, v) :: d, h => by
    have hk : keyRT k = true := h k (by simp)
    have hc := (keyRT_spec hk).1
    have ih := camel_mapM_eq (d := d) (fun k' hk' => h k' (by simp [hk']))
    simp only [List.mapM_cons, hc, ih, List.map_cons]
    rfl

theorem camelRekey_eq {d : List (String × PyVal)}
    (h : ∀ k ∈ d.map Prod.fst, keyRT k = true) :
    camelRekey d = .ok (fromPairs (d.map (fun kv => (camelOf kv.1, kv.2)))) := by
  unfold camelRekey
  rw [camel_mapM_eq h]
  rfl

theorem snake_mapM_eq : ∀ {d : List (String × PyVal)},
    (∀ k ∈ d.map Prod.fst, keyRT k = true) →
    (d.map (fun kv => (camelOf kv.1, kv.2))).mapM
        (fun kv => do pure (← snake_case kv.1, kv.2))
      = Except.ok d
  | [], _ => rfl
  | (k, v) :: d, h => by
    have hk : keyRT k = true := h k (by simp)
    have hs := (keyRT_spec hk).2
    have ih := snake_mapM_eq (d := d) (fun k' hk' => h k' (by simp [hk']))
    simp only [List.map_cons, List.mapM_cons, hs, ih]
    rfl

theorem snakeRekey_eq {d : List (String × PyVal)}
    (h : ∀ k ∈ d.map Prod.fst, keyRT k = true) :
    snakeRekey (d.map (fun kv => (camelOf kv.1, kv.2))) = .ok (fromPairs d) := by
  unfold snakeRekey
  rw [snake_mapM_eq h]
  rfl

theorem kwargs_mapM_eq : ∀ {d : List (String × PyVal)},
    (∀ k ∈ d.map Prod.fst, keyRT k = true) →
    (d.map (fun kv => (camelOf kv.1, kv.2))).mapM
        (fun kv => (snake_case kv.1).map (fun k => (k, kv.2)))
      = Except.ok d
  | [], _ => rfl
  | (k, v) :: d, h => by
    have hk : keyRT k = true := h k (by simp)
    have hs := (keyRT_spec hk).2
    have ih := kwargs_mapM_eq (d := d) (fun k' hk' => h k' (by simp [hk']))
    simp only [List.map_cons, List.mapM_cons, hs, ih]
    rfl

theorem camel_keys_nodup {d : List (String × PyVal)}
    (hnd : (d.map Prod.fst).Nodup)
    (h : ∀ k ∈ d.map Prod.fst, keyRT k = true) :
    ((d.map (fun kv => (camelOf kv.1, kv.2))).map Prod.fst).Nodup := by
  have heq : (d.map (fun kv => (camelOf kv.1, kv.2))).map Prod.fst
      = (d.map Prod.fst).map camelOf := by
    simp only [List.map_map]
    rfl
  rw [heq]
  refine hnd.map_on ?_
  intro x hx y hy hxy
  have hsx := (keyRT_spec (h x hx)).2
  have hsy := (keyRT_spec (h y hy)).2
  rw [hxy, hsy] at hsx
  simpa using hsx.symm

theorem camel_keys_not_reserved {d : List (String × PyVal)}
    (h : ∀ k ∈ d.map Prod.fst, keyRT k = true) :
    "$module" ∉ (d.map (fun kv => (camelOf kv.1, kv.2))).map Prod.fst ∧
    "$type" ∉ (d.map (fun kv => (camelOf kv.1, kv.2))).map Prod.fst := by
  have heq : (d.map (fun kv => (camelOf kv.1, kv.2))).map Prod.fst
      = (d.map Prod.fst).map camelOf := by
    simp only [List.map_map]
    rfl
  rw [heq]
  constructor <;> intro hm
  · obtain ⟨k, hk, hfst⟩ := List.mem_map.1 hm
    exact (camelOf_ne_reserved (h k hk)).1 hfst
  · obtain ⟨k, hk, hfst⟩ := List.mem_map.1 hm
    exact (camelOf_ne_reserved (h k hk)).2 hfst

theorem keys_not_reserved {camel : Bool} {d : List (String × PyVal)}
    (h : ∀ k ∈ d.map Prod.fst, goodKey camel k = true) :
    "$module" ∉ d.map Prod.fst ∧ "$type" ∉ d.map Prod.fst :=
  ⟨fun hm => (goodKey_parts (h _ hm)).1 rfl,
   fun hm => (goodKey_parts (h _ hm)).2.1 rfl⟩

theorem jsonifyValues_rt (env : Env) (camel : Bool) :
    ∀ (es : List (String × PyVal)),
    (∀ kv ∈ es, ∃ w, jsonify camel true kv.2 = .ok w ∧ unjsonify env camel w = .ok kv.2) →
    ∃ es', jsonifyValues camel true es = .ok es' ∧
      List.Forall₂ (fun p q : String × PyVal =>
        p.1 = q.1 ∧ unjsonify env camel p.2 = .ok q.2) es' es
  | [], _ => ⟨[], rfl, List.Forall₂.nil⟩
  | (k, v) :: es, h => by
    obtain ⟨w, hw, hwd⟩ := h (k, v) (List.mem_cons_self _ _)
    obtain ⟨es', hr, hf⟩ := jsonifyValues_rt env camel es
      (fun kv hkv => h kv (List.mem_cons_of_mem _ hkv))
    refine ⟨(k, w) :: es', ?_, List.Forall₂.cons ⟨rfl, hwd⟩ hf⟩
    simp only [jsonifyValues, hw, hr]
    rfl

theorem jsonifyList_rt (env : Env) (camel : Bool) :
    ∀ (xs : List PyVal),
    (∀ x ∈ xs, ∃ w, jsonify camel true x = .ok w ∧ unjsonify env camel w = .ok x) →
    ∃ ws, jsonifyList camel true xs = .ok ws ∧ unjsonifyList env camel ws = .ok xs
  | [], _ => ⟨[], rfl, rfl⟩
  | x :: xs, h => by
    obtain ⟨w, hw, hwd⟩ := h x (List.mem_cons_self _ _)
    obtain ⟨ws, he, hd⟩ := jsonifyList_rt env camel xs
      (fun y hy => h y (List.mem_cons_of_mem _ hy))
    refine ⟨w :: ws, ?_, ?_⟩
    · simp only [jsonifyList, hw, he]; rfl
    · simp only [unjsonifyList, hwd, hd]; rfl

theorem jsonifyFields_rt (env : Env) (camel : Bool) :
    ∀ (fs : List (String × PyVal)),
    (∀ kv ∈ fs, goodFieldName camel kv.1 = true) →
    (∀ kv ∈ fs, ∃ w, jsonify camel true kv.2 = .ok w ∧ unjsonify env camel w = .ok kv.2) →
    ∃ es', jsonifyFields camel true fs = .ok es' ∧
      List.Forall₂ (fun p q : String × PyVal =>
        p.1 = (if camel then camelOf q.1 else q.1) ∧
          unjsonify env camel p.2 = .ok q.2) es' fs
  | [], _, _ => ⟨[], rfl, List.Forall₂.nil⟩
  | (k, v) :: fs, hg, h => by
    obtain ⟨w, hw, hwd⟩ := h (k, v) (List.mem_cons_self _ _)
    obtain ⟨es', he, hf⟩ := jsonifyFields_rt env camel fs
      (fun kv hkv => hg kv (List.mem_cons_of_mem _ hkv))
      (fun kv hkv => h kv (List.mem_cons_of_mem _ hkv))
    cases camel with
    | false =>
      refine ⟨(k, w) :: es', ?_, List.Forall₂.cons ⟨by simp, hwd⟩ hf⟩
      simp only [jsonifyFields, hw, he]
      rfl
    | true =>
      have hk : keyRT k = true :=
        (goodFieldName_parts (hg (k, v) (List.mem_cons_self _ _))).2 rfl
      have hc := (keyRT_spec hk).1
      refine ⟨(camelOf k, w) :: es', ?_, List.Forall₂.cons ⟨by simp, hwd⟩ hf⟩
      simp only [jsonifyFields, hw, he, hc]
      rfl

theorem forall2_field_to_dec {env : Env} {camel : Bool}
    {a fs : List (String × PyVal)}
    (h : List.Forall₂ (fun p q : String × PyVal =>
      p.1 = (if camel then camelOf q.1 else q.1) ∧
        unjsonify env camel p.2 = .ok q.2) a fs) :
    List.Forall₂ (fun p q : String × PyVal =>
      p.1 = q.1 ∧ unjsonify env camel p.2 = .ok q.2) a
      (fs.map (fun kv => ((if camel then camelOf kv.1 else kv.1), kv.2))) := by
  induction h with
  | nil => exact List.Forall₂.nil
  | cons h1 h2 ih => exact List.Forall₂.cons ⟨h1.1, h1.2⟩ ih

theorem unjsonify_dict_split (env : Env) (camel : Bool) (D : List (String × PyVal)) :
    unjsonify env camel (.dict D)
      = (unjsonifyValues env camel D).bind (uDictRest env camel) := rfl

theorem unjsonify_dict_plain_false {env : Env} {D dec : List (String × PyVal)}
    (huv : unjsonifyValues env false D = .ok dec)
    (hnd : (dec.map Prod.fst).Nodup)
    (hmod : "$module" ∉ dec.map Prod.fst) (htyp : "$type" ∉ dec.map Prod.fst) :
    unjsonify env false (.dict D) = .ok (.dict dec) := by
  rw [unjsonify_dict_split, huv]
  show uDictRest env false dec = .ok (.dict dec)
  unfold uDictRest
  dsimp only
  rw [fromPairs_eq hnd, dictPop_not_mem hmod]
  dsimp only
  rw [dictPop_not_mem htyp]
  rfl

theorem unjsonify_dict_plain_true {env : Env} {D dec out : List (String × PyVal)}
    (huv : unjsonifyValues env true D = .ok dec)
    (hnd : (dec.map Prod.fst).Nodup)
    (hmod : "$module" ∉ dec.map Prod.fst) (htyp : "$type" ∉ dec.map Prod.fst)
    (hsn : snakeRekey dec = .ok out) :
    unjsonify env true (.dict D) = .ok (.dict out) := by
  rw [unjsonify_dict_split, huv]
  show uDictRest env true dec = .ok (.dict out)
  unfold uDictRest
  dsimp only
  rw [fromPairs_eq hnd, dictPop_not_mem hmod]
  dsimp only
  rw [dictPop_not_mem htyp]
  dsimp only
  rw [hsn]
  rfl

theorem unjsonify_dict_tagged {env : Env} {camel : Bool}
    {D dfs : List (String × PyVal)} {m t : String}
    (huv : unjsonifyValues env camel D
      = .ok (dfs ++ [("$module", .str m), ("$type", .str t)]))
    (hnd : (dfs.map Prod.fst).Nodup)
    (hmod : "$module" ∉ dfs.map Prod.fst) (htyp : "$type" ∉ dfs.map Prod.fst) :
    unjsonify env camel (.dict D)
      = (match resolveEnv env m t with
         | Option.none =>
           Except.error (PyErr.valueError ("Could not locate: " ++ m ++ "." ++ t))
         | some r => dispatchResolved camel r dfs : Except PyErr PyVal) := by
  rw [unjsonify_dict_split, huv]
  show uDictRest env camel (dfs ++ [("$module", PyVal.str m), ("$type", PyVal.str t)]) = _
  unfold uDictRest
  dsimp only
  have hmap2 : List.map Prod.fst [("$module", PyVal.str m), ("$type", PyVal.str t)]
      = ["$module", "$type"] := rfl
  have hndall : (((dfs ++ [("$module", PyVal.str m), ("$type", PyVal.str t)])).map Prod.fst).Nodup := by
    rw [List.map_append, hmap2]
    refine List.Nodup.append hnd (by decide) ?_
    intro x hx hx2
    rcases (by simpa using hx2 : x = "$module" ∨ x = "$type") with rfl | rfl
    · exact hmod hx
    · exact htyp hx
  rw [fromPairs_eq hndall, dictPop_append_left hmod]
  have hp1 : dictPop "$module" [("$module", PyVal.str m), ("$type", PyVal.str t)]
      = (some (PyVal.str m), [("$type", PyVal.str t)]) := rfl
  rw [hp1]
  dsimp only
  rw [dictPop_append_left htyp]
  have hp2 : dictPop "$type" [("$type", PyVal.str t)] = (some (PyVal.str t), []) := rfl
  rw [hp2]
  dsimp only
  rw [List.append_nil]
  rfl

theorem mapM_lookup_cons {l : List String} {k : String} {v : PyVal}
    {d : List (String × PyVal)} (h : k ∉ l) :
    l.mapM (fun f => (List.lookup f ((k, v) :: d)).map (fun w => (f, w)))
      = l.mapM (fun f => (List.lookup f d).map (fun w => (f, w))) := by
  induction l with
  | nil => rfl
  | cons n ns ih =>
    simp only [List.mem_cons, not_or] at h
    have hlk : List.lookup n ((k, v) :: d) = List.lookup n d := by
      have hne : (n == k) = false := beq_false_of_ne (fun hh => h.1 hh.symm)
      simp [List.lookup, hne]
    simp only [List.mapM_cons, hlk, ih h.2]

theorem dataclass_mapM_lookup : ∀ {fs : List (String × PyVal)},
    (fs.map Prod.fst).Nodup →
    (fs.map Prod.fst).mapM (fun f => (List.lookup f fs).map (fun w => (f, w)))
      = some fs
  | [], _ => rfl
  | (k, v) :: fs, hnd => by
    simp only [List.map_cons, List.nodup_cons] at hnd
    have hk : List.lookup k ((k, v) :: fs) = some v := by simp [List.lookup]
    have hrest := mapM_lookup_cons (k := k) (v := v)
      (d := fs) (l := fs.map Prod.fst) hnd.1
    simp only [List.map_cons, List.mapM_cons, hk, hrest, dataclass_mapM_lookup hnd.2]
    rfl

theorem all_keys_contains {fs : List (String × PyVal)} :
    fs.all (fun kv => (fs.map Prod.fst).contains kv.1) = true := by
  rw [List.all_eq_true]
  intro kv hkv
  exact List.elem_iff.2 (List.mem_map_of_mem Prod.fst hkv)

theorem dataclassCall_self {dm dn : String} {fs : List (String × PyVal)}
    (hnd : (fs.map Prod.fst).Nodup) :
    dataclassCall dm dn (fs.map Prod.fst) fs = .ok (.dataclass dm dn fs) := by
  unfold dataclassCall
  rw [if_pos all_keys_contains, dataclass_mapM_lookup hnd]

theorem roundtrip_n (env : Env) (camel : Bool) :
    ∀ (n : Nat) (v : PyVal), sizeOf v ≤ n → roundSafe camel v = true →
    ∃ w, jsonify camel true v = .ok w ∧ unjsonify env camel w = .ok v := by
  intro n
  induction n with
  | zero =>
    intro v hsz _
    cases v <;> simp at hsz
  | succ n ih =>
    intro v hsz hsafe
    cases v with
    | none => exact ⟨.none, rfl, rfl⟩
    | bool b => exact ⟨.bool b, rfl, rfl⟩
    | int i => exact ⟨.int i, rfl, rfl⟩
    | str s => exact ⟨.str s, rfl, rfl⟩
    | float f =>
      cases f with
      | finite bits => exact ⟨.float (.finite bits), rfl, rfl⟩
      | nan => simp [roundSafe] at hsafe
      | inf p => simp [roundSafe] at hsafe
    | list xs =>
      simp only [roundSafe] at hsafe
      have hall : ∀ x ∈ xs, roundSafe camel x = true := roundSafeList_iff.1 hsafe
      have hrt : ∀ x ∈ xs, ∃ w, jsonify camel true x = .ok w ∧
          unjsonify env camel w = .ok x := by
        intro x hx
        have h1 : sizeOf x < sizeOf xs := List.sizeOf_lt_of_mem hx
        have h2 : sizeOf (PyVal.list xs) = 1 + sizeOf xs := by simp
        exact ih x (by omega) (hall x hx)
      obtain ⟨ws, he, hd⟩ := jsonifyList_rt env camel xs hrt
      refine ⟨.list ws, ?_, ?_⟩
      · have h1 : jsonify camel true (.list xs)
            = (jsonifyList camel true xs).bind (fun ys => pure (.list ys)) := rfl
        rw [h1, he]
        rfl
      · have h2 : unjsonify env camel (.list ws)
            = (unjsonifyList env camel ws).bind (fun ys => pure (.list ys)) := rfl
        rw [h2, hd]
        rfl
    | dict es =>
      simp only [roundSafe, Bool.and_eq_true, decide_eq_true_eq] at hsafe
      obtain ⟨hnd, hpairs⟩ := hsafe
      have hall := roundSafePairs_iff.1 hpairs
      have hgood : ∀ k ∈ es.map Prod.fst, goodKey camel k = true := by
        intro k hk
        obtain ⟨kv, hkv, rfl⟩ := List.mem_map.1 hk
        exact (hall kv hkv).1
      have hrt : ∀ kv ∈ es, ∃ w, jsonify camel true kv.2 = .ok w ∧
          unjsonify env camel w = .ok kv.2 := by
        intro kv hkv
        have h1 : sizeOf kv < sizeOf es := List.sizeOf_lt_of_mem hkv
        have h2 : sizeOf (PyVal.dict es) = 1 + sizeOf es := by simp
        have h3 : sizeOf kv.2 < sizeOf kv := by
          obtain ⟨a, b⟩ := kv
          simp only [Prod.mk.sizeOf_spec]
          omega
        exact ih kv.2 (by omega) (hall kv hkv).2
      obtain ⟨es', henc, hf2⟩ := jsonifyValues_rt env camel es hrt
      have hkeys : es'.map Prod.fst = es.map Prod.fst := forall2_dec_keys hf2
      have hfp : fromPairs es' = es' := fromPairs_eq (by rw [hkeys]; exact hnd)
      cases camel with
      | false =>
        have hdecv : unjsonifyValues env false es' = .ok es := unjsonifyValues_forall₂ hf2
        refine ⟨.dict es', ?_, ?_⟩
        · have h1 : jsonify false true (.dict es)
              = (jsonifyValues false true es).bind
                  (fun es0 => pure (.dict (fromPairs es0))) := rfl
          rw [h1, henc]
          show Except.ok (PyVal.dict (fromPairs es')) = _
          rw [hfp]
        · have hnr := keys_not_reserved hgood
          exact unjsonify_dict_plain_false hdecv hnd hnr.1 hnr.2
      | true =>
        have hkRT : ∀ k ∈ es.map Prod.fst, keyRT k = true := fun k hk =>
          (goodKey_parts (hgood k hk)).2.2 rfl
        have hkRT' : ∀ k ∈ es'.map Prod.fst, keyRT k = true := by
          rw [hkeys]; exact hkRT
        have hcnod' : ((es'.map (fun kv => (camelOf kv.1, kv.2))).map Prod.fst).Nodup :=
          camel_keys_nodup (by rw [hkeys]; exact hnd) hkRT'
        have hcrk := camelRekey_eq hkRT'
        have hfp2 : fromPairs (es'.map (fun kv => (camelOf kv.1, kv.2)))
            = es'.map (fun kv => (camelOf kv.1, kv.2)) := fromPairs_eq hcnod'
        refine ⟨.dict (es'.map (fun kv => (camelOf kv.1, kv.2))), ?_, ?_⟩
        · have h1 : jsonify true true (.dict es)
              = (jsonifyValues true true es).bind
                  (fun es0 => (camelRekey (fromPairs es0)).bind
                    (fun d2 => pure (.dict d2))) := rfl
          rw [h1, henc]
          show (camelRekey (fromPairs es')).bind (fun d2 => pure (PyVal.dict d2)) = _
          rw [hfp, hcrk]
          show Except.ok (PyVal.dict (fromPairs (es'.map fun kv => (camelOf kv.1, kv.2)))) = _
          rw [hfp2]
        · have hf2c := forall2_dec_rekey camelOf hf2
          have hdecvc : unjsonifyValues env true (es'.map (fun kv => (camelOf kv.1, kv.2)))
              = .ok (es.map (fun kv => (camelOf kv.1, kv.2))) := unjsonifyValues_forall₂ hf2c
          have hcnodes : ((es.map (fun kv => (camelOf kv.1, kv.2))).map Prod.fst).Nodup :=
            camel_keys_nodup hnd hkRT
          have hnr := camel_keys_not_reserved (d := es) hkRT
          have hsn : snakeRekey (es.map (fun kv => (camelOf kv.1, kv.2))) = .ok es := by
            rw [snakeRekey_eq hkRT, fromPairs_eq hnd]
          exact unjsonify_dict_plain_true hdecvc hcnodes hnr.1 hnr.2 hsn
    | dataclass dm dn dfs => simp [roundSafe] at hsafe
    | pydatetime d tod tz => simp [roundSafe] at hsafe
    | static cm cn mn sfs => simp [roundSafe] at hsafe

/-- Every value in the JSON-safe round-trip domain does round-trip. -/
theorem roundSafe_RT (env : Env) (camel : Bool) (v : PyVal)
    (h : roundSafe camel v = true) : RT env camel v :=
  roundtrip_n env camel (sizeOf v) v le_rfl h

theorem isLeap_iff (y : Nat) :
    isLeap y = true ↔ (y % 4 = 0 ∧ (y % 100 ≠ 0 ∨ y % 400 = 0)) := by
  simp [isLeap]

theorem isLeap_cases (y : Nat) :
    (isLeap y = true ∧ (y % 4 = 0 ∧ (y % 100 ≠ 0 ∨ y % 400 = 0))) ∨
    (isLeap y = false ∧ ¬(y % 4 = 0 ∧ (y % 100 ≠ 0 ∨ y % 400 = 0))) := by
  cases hb : isLeap y
  · exact Or.inr ⟨rfl, fun hc => by rw [(isLeap_iff y).2 hc] at hb; cases hb⟩
  · exact Or.inl ⟨rfl, (isLeap_iff y).1 hb⟩

theorem validDate_mk (a b c : Nat) : validDate ⟨a, b, c⟩ ↔
    (1 ≤ a ∧ a ≤ 9999 ∧ 1 ≤ b ∧ b ≤ 12 ∧ 1 ≤ c ∧ c ≤ daysInMonth a b) :=
  Iff.rfl

theorem daysFromCivil_mk (a b c : Nat) : daysFromCivil ⟨a, b, c⟩ =
    (a - (if b ≤ 2 then 1 else 0)) / 400 * 146097 +
      ((a - (if b ≤ 2 then 1 else 0)) % 400 * 365 +
        (a - (if b ≤ 2 then 1 else 0)) % 400 / 4 -
        (a - (if b ≤ 2 then 1 else 0)) % 400 / 100 +
        ((153 * ((b + 9) % 12) + 2) / 5 + c - 1)) := rfl

theorem daysFromCivil_eq (a b c : Nat) : daysFromCivil ⟨a, b, c⟩ =
    yearParts (a - (if b ≤ 2 then 1 else 0)) + ((153 * ((b + 9) % 12) + 2) / 5 + c - 1) := by
  rw [daysFromCivil_mk]
  unfold yearParts
  omega

theorem yearParts_succ_leap (y : Nat) (h1 : 1 ≤ y)
    (h : y % 4 = 0 ∧ (y % 100 ≠ 0 ∨ y % 400 = 0)) :
    yearParts y = yearParts (y - 1) + 366 := by
  unfold yearParts
  omega

theorem yearParts_succ_noleap (y : Nat) (h1 : 1 ≤ y)
    (h : ¬(y % 4 = 0 ∧ (y % 100 ≠ 0 ∨ y % 400 = 0))) :
    yearParts y = yearParts (y - 1) + 365 := by
  unfold yearParts
  omega

theorem daysInMonth_bounds (y m : Nat) : 28 ≤ daysInMonth y m ∧ daysInMonth y m ≤ 31 := by
  unfold daysInMonth
  split_ifs <;> omega

theorem daysFromCivil_dateSucc (y m day : Nat) (h : validDate ⟨y, m, day⟩) :
    daysFromCivil (dateSucc ⟨y, m, day⟩) = daysFromCivil ⟨y, m, day⟩ + 1 := by
  obtain ⟨hy1, hy2, hm1, hm2, hd1, hd2⟩ := (validDate_mk y m day).1 h
  show daysFromCivil (if day < daysInMonth y m then ⟨y, m, day + 1⟩
    else if m < 12 then ⟨y, m + 1, 1⟩ else ⟨y + 1, 1, 1⟩) = _
  by_cases hA : day < daysInMonth y m
  · rw [if_pos hA, daysFromCivil_eq, daysFromCivil_eq]
    omega
  · rw [if_neg hA]
    have hD : day = daysInMonth y m := le_antisymm hd2 (not_lt.1 hA)
    by_cases hB : m < 12
    · rw [if_pos hB, daysFromCivil_eq, daysFromCivil_eq]
      rcases (by omega : m = 2 ∨ m = 1 ∨ m = 3 ∨ m = 4 ∨ m = 5 ∨ m = 6 ∨ m = 7 ∨
          m = 8 ∨ m = 9 ∨ m = 10 ∨ m = 11) with
        rfl | rfl | rfl | rfl | rfl | rfl | rfl | rfl | rfl | rfl | rfl
      -- February first: the only month whose length depends on the leap rule
      · rcases isLeap_cases y with ⟨hb, hld⟩ | ⟨hb, hld⟩
        · have hDv : day = 29 := by simpa [daysInMonth, hb] using hD
          subst hDv
          norm_num
          rw [yearParts_succ_leap y (by omega) hld]
        · have hDv : day = 28 := by simpa [daysInMonth, hb] using hD
          subst hDv
          norm_num
          rw [yearParts_succ_noleap y (by omega) hld]
      all_goals (
        rw [show day = daysInMonth y _ from hD]
        norm_num [daysInMonth]
        try omega)
    · rw [if_neg hB, daysFromCivil_eq, daysFromCivil_eq]
      have hm12 : m = 12 := by omega
      subst hm12
      have hDv : day = 31 := by simpa [daysInMonth] using hD
      subst hDv
      norm_num

theorem daysFromCivil_datePred (y m day : Nat) (h : validDate ⟨y, m, day⟩) :
    daysFromCivil (datePred ⟨y, m, day⟩) + 1 = daysFromCivil ⟨y, m, day⟩ := by
  obtain ⟨hy1, hy2, hm1, hm2, hd1, hd2⟩ := (validDate_mk y m day).1 h
  show daysFromCivil (if 1 < day then ⟨y, m, day - 1⟩
    else if 1 < m then ⟨y, m - 1, daysInMonth y (m - 1)⟩ else ⟨y - 1, 12, 31⟩) + 1 = _
  by_cases hA : 1 < day
  · rw [if_pos hA, daysFromCivil_eq, daysFromCivil_eq]
    omega
  · rw [if_neg hA]
    have hd1' : day = 1 := by omega
    subst hd1'
    by_cases hB : 1 < m
    · rw [if_pos hB, daysFromCivil_eq, daysFromCivil_eq]
      rcases (by omega : m = 3 ∨ m = 2 ∨ m = 4 ∨ m = 5 ∨ m = 6 ∨ m = 7 ∨ m = 8 ∨
          m = 9 ∨ m = 10 ∨ m = 11 ∨ m = 12) with
        rfl | rfl | rfl | rfl | rfl | rfl | rfl | rfl | rfl | rfl | rfl
      -- March first: its previous month is February
      · rcases isLeap_cases y with ⟨hb, hld⟩ | ⟨hb, hld⟩
        · have hDv : daysInMonth y (3 - 1) = 29 := by simp [daysInMonth, hb]
          rw [hDv]
          norm_num
          rw [yearParts_succ_leap y (by omega) hld]
        · have hDv : daysInMonth y (3 - 1) = 28 := by simp [daysInMonth, hb]
          rw [hDv]
          norm_num
          rw [yearParts_succ_noleap y (by omega) hld]
      all_goals (
        norm_num [daysInMonth]
        try omega)
    · rw [if_neg hB, daysFromCivil_eq, daysFromCivil_eq]
      have hm1' : m = 1 := by omega
      subst hm1'
      norm_num

theorem dateSucc_valid (y m day : Nat) (h : validDate ⟨y, m, day⟩) (hy : y ≤ 9998) :
    validDate (dateSucc ⟨y, m, day⟩) := by
  obtain ⟨hy1, hy2, hm1, hm2, hd1, hd2⟩ := (validDate_mk y m day).1 h
  show validDate (if day < daysInMonth y m then ⟨y, m, day + 1⟩
    else if m < 12 then ⟨y, m + 1, 1⟩ else ⟨y + 1, 1, 1⟩)
  have h1 := daysInMonth_bounds y m
  have h2 := daysInMonth_bounds y (m + 1)
  have h3 := daysInMonth_bounds (y + 1) 1
  split_ifs with hA hB <;> rw [validDate_mk] <;> omega

theorem datePred_valid (y m day : Nat) (h : validDate ⟨y, m, day⟩) (hy : 2 ≤ y) :
    validDate (datePred ⟨y, m, day⟩) := by
  obtain ⟨hy1, hy2, hm1, hm2, hd1, hd2⟩ := (validDate_mk y m day).1 h
  show validDate (if 1 < day then ⟨y, m, day - 1⟩
    else if 1 < m then ⟨y, m - 1, daysInMonth y (m - 1)⟩ else ⟨y - 1, 12, 31⟩)
  have h1 := daysInMonth_bounds y m
  have h2 := daysInMonth_bounds y (m - 1)
  have h3 : daysInMonth (y - 1) 12 = 31 := by simp [daysInMonth]
  split_ifs with hA hB <;> rw [validDate_mk] <;> omega

/-- `astimezone(pytz.utc)` preserves validity, keeps the time of day in
range, and shifts the linear instant by exactly the fixed offset. -/
theorem astimezoneUtc_spec (y m day tod : Nat) (o : Int)
    (hv : validDate ⟨y, m, day⟩) (h2 : 2 ≤ y) (h9 : y ≤ 9998)
    (htod : tod < microPerDay) (ho : o.natAbs < 1440) :
    validDate (astimezoneUtc ⟨y, m, day⟩ tod o).1 ∧
    (astimezoneUtc ⟨y, m, day⟩ tod o).2 < microPerDay ∧
    ((daysFromCivil (astimezoneUtc ⟨y, m, day⟩ tod o).1 : Int) * microPerDay
        + (astimezoneUtc ⟨y, m, day⟩ tod o).2)
      = (daysFromCivil ⟨y, m, day⟩ : Int) * microPerDay + tod - o * 60000000 := by
  have hsucc := daysFromCivil_dateSucc y m day hv
  have hpred := daysFromCivil_datePred y m day hv
  have hsv := dateSucc_valid y m day hv (by omega)
  have hpv := datePred_valid y m day hv (by omega)
  unfold astimezoneUtc
  dsimp only
  split_ifs with hs1 hs2 <;> dsimp only <;> refine ⟨?_, ?_, ?_⟩
  · exact hpv
  · simp only [microPerDay] at *; omega
  · simp only [microPerDay] at *; omega
  · exact hv
  · simp only [microPerDay] at *; omega
  · simp only [microPerDay] at *; omega
  · exact hsv
  · simp only [microPerDay] at *; omega
  · simp only [microPerDay] at *; omega

/-- Calling `date_time` with the seven components of a valid UTC date/time
and the zone string `"UTC"` reconstructs exactly that aware datetime. -/
theorem dateTimeCall_components (d' : DateC) (tod' : Nat)
    (hv : validDate d') (ht : tod' < microPerDay) :
    dateTimeCall [("year", .int d'.year), ("month", .int d'.month), ("day", .int d'.day),
      ("hour", .int (tod' / 3600000000)), ("minute", .int (tod' / 60000000 % 60)),
      ("second", .int (tod' / 1000000 % 60)), ("microsecond", .int (tod' % 1000000)),
      ("timezone", .str "UTC")] = .ok (.pydatetime d' tod' .pytzUtc) := by
  obtain ⟨y, m, day⟩ := d'
  obtain ⟨hy1, hy2, hm1, hm2, hd1, hd2⟩ := (validDate_mk y m day).1 hv
  simp only [microPerDay] at ht
  have hc : dtComponentsOk (y : Int) (m : Int) (day : Int)
      ((tod' : Int) / 3600000000) ((tod' : Int) / 60000000 % 60)
      ((tod' : Int) / 1000000 % 60) ((tod' : Int) % 1000000) = true := by
    simp only [dtComponentsOk, Bool.and_eq_true, decide_eq_true_eq, Int.toNat_natCast]
    omega
  show (if dtComponentsOk (y : Int) (m : Int) (day : Int)
      ((tod' : Int) / 3600000000) ((tod' : Int) / 60000000 % 60)
      ((tod' : Int) / 1000000 % 60) ((tod' : Int) % 1000000) then
      Except.ok (PyVal.pydatetime
        ⟨((y : Int)).toNat, ((m : Int)).toNat, ((day : Int)).toNat⟩
        (((tod' : Int) / 3600000000).toNat * 3600000000 +
          ((tod' : Int) / 60000000 % 60).toNat * 60000000 +
          ((tod' : Int) / 1000000 % 60).toNat * 1000000 +
          ((tod' : Int) % 1000000).toNat) PyTz.pytzUtc)
    else Except.error (PyErr.valueError
      "Bad arguments for pygot.serialisation.date_time: bad call"))
    = Except.ok (PyVal.pydatetime ⟨y, m, day⟩ tod' PyTz.pytzUtc)
  rw [if_pos hc]
  have hY : ((y : Int)).toNat = y := Int.toNat_natCast y
  have hM : ((m : Int)).toNat = m := Int.toNat_natCast m
  have hD : ((day : Int)).toNat = day := Int.toNat_natCast day
  have hre : ((tod' : Int) / 3600000000).toNat * 3600000000 +
      ((tod' : Int) / 60000000 % 60).toNat * 60000000 +
      ((tod' : Int) / 1000000 % 60).toNat * 1000000 +
      ((tod' : Int) % 1000000).toNat = tod' := by omega
  rw [hY, hM, hD, hre]

/-! ## Claims -/

/-- C2 (counterexample): the claim states that encoding the plain mapping
with camel-case keys enabled yields the outer key `someReally` unchanged;
in fact `camel_case` lowercases its whole input first
(`'someReally'.lower().split('_')`), so the outer key comes out as
`somereally`, different from the claimed `someReally`. -/
theorem c2_encode_counterexample :
    jsonify true false (.dict [("someReally", .dict [("quite_nested", .str "thing")])])
      = .ok (.dict [("somereally", .dict [("quiteNested", .str "thing")])]) ∧
    (PyVal.dict [("somereally", .dict [("quiteNested", .str "thing")])])
      ≠ .dict [("someReally", .dict [("quiteNested", .str "thing")])] := by
  constructor
  · rfl
  · intro h
    have := congrArg (fun v => match v with
      | PyVal.dict ((k, _) :: _) => k
      | _ => "") h
    simp at this

/-- C2 (amended): encoding `{"someReally": {"quite_nested": "thing"}}` with
camel casing and no tag yields `{"somereally": {"quiteNested": "thing"}}`
(the outer key is lowercased because `camel_case` lowercases its input), and
decoding that result with camel casing yields
`{"somereally": {"quite_nested": "thing"}}` (in any import environment,
since no type tag is present). -/
theorem c2_amended (env : Env) :
    jsonify true false (.dict [("someReally", .dict [("quite_nested", .str "thing")])])
      = .ok (.dict [("somereally", .dict [("quiteNested", .str "thing")])]) ∧
    unjsonify env true (.dict [("somereally", .dict [("quiteNested", .str "thing")])])
      = .ok (.dict [("somereally", .dict [("quite_nested", .str "thing")])]) := by
  exact ⟨rfl, rfl⟩

/-- C3 (code bug): `_jsonify_static_data` reads `serialisation.MODULE_KEY`
and `serialisation.NAME_KEY`, but `pygot/serialisation.py` defines only the
private `_MODULE_KEY`/`_NAME_KEY`; encoding any registered static member
with type tags therefore raises `AttributeError` instead of producing the
tagged mapping the claim (and the repository's own tests) describe.  With
tags disabled the fixed fields plus the `name` entry are produced as
expected. -/
theorem c3_static_encode_attribute_error :
    jsonify true true (.static "pygot.static" "House" "Stark"
        [("words", .str "Winter is Coming"), ("description", .str "")])
      = .error (.attributeError "module pygot.serialisation has no attribute MODULE_KEY") ∧
    jsonify true false (.static "pygot.static" "House" "Stark"
        [("words", .str "Winter is Coming"), ("description", .str "")])
      = .ok (.dict [("words", .str "Winter is Coming"), ("description", .str ""),
          ("name", .str "Stark")]) := by
  exact ⟨rfl, rfl⟩

/-- C9: on every valid identifier (ASCII letters, digits, underscore), the
implemented `snake_case` computes exactly the algorithm stated by the
specification (`snakeSpecGo`): an uppercase letter is lowered and prefixed
with an underscore precisely when the preceding character exists and is not
uppercase; all other characters pass through; including the claim's two
examples. -/
theorem c9_snake_case_algorithm (s : String) (h : validIdent s = true) :
    snake_case s = .ok (String.mk (snakeSpecGo Option.none s.toList)) ∧
    snake_case "one2Three" = .ok "one2_three" ∧
    snake_case "KeyWord" = .ok "key_word" := by
  refine ⟨?_, rfl, rfl⟩
  unfold validIdent at h
  unfold snake_case
  rw [if_pos h]
  have main : ∀ (cs : List Char) (prev : Option Char), cs.all allowedChar = true →
      snakeLoop (match prev with | Option.none => true | some p => pyIsUpper p) cs
        = snakeSpecGo prev cs := by
    intro cs
    induction cs with
    | nil => intro prev _; cases prev <;> rfl
    | cons c cs ih =>
      intro prev hall
      simp only [List.all_cons, Bool.and_eq_true] at hall
      have hrec : snakeLoop (pyIsUpper c) cs = snakeSpecGo (some c) cs := by
        simpa using ih (some c) hall.2
      by_cases hu : pyIsUpper c = true
      · have hu' : 65 ≤ c.toNat ∧ c.toNat ≤ 90 := by simpa [pyIsUpper] using hu
        have halpha : pyIsAlpha c = true := by simp [pyIsAlpha, hu]
        have hlow : pyIsLower c = false := by
          unfold pyIsLower
          have h97 : ¬ 97 ≤ c.toNat := by omega
          simp [h97]
        rw [snakeLoop, snakeSpecGo]
        cases prev with
        | none =>
          rw [snakeSpecStep]
          simp [halpha, hlow, hu, hu ▸ hrec]
        | some p =>
          rw [snakeSpecStep]
          by_cases hp : pyIsUpper p = true
          · simp [halpha, hlow, hu, hp, hu ▸ hrec]
          · simp only [Bool.not_eq_true] at hp
            simp [halpha, hlow, hu, hp, hu ▸ hrec]
      · simp only [Bool.not_eq_true] at hu
        have hrec' : snakeLoop false cs = snakeSpecGo (some c) cs := by
          rw [← hrec, hu]
        have hstep : snakeSpecStep prev c = [c] := by
          cases prev with
          | none => rw [snakeSpecStep]; simp [hu]
          | some p => rw [snakeSpecStep]; simp [hu]
        rw [snakeSpecGo, hstep, snakeLoop]
        by_cases hl : pyIsLower c = true
        · have halpha : pyIsAlpha c = true := by simp [pyIsAlpha, hl]
          simp [halpha, hl, hrec']
        · simp only [Bool.not_eq_true] at hl
          have halpha : pyIsAlpha c = false := by simp [pyIsAlpha, hu, hl]
          simp [halpha, hrec']
  exact congrArg (fun l => Except.ok (String.mk l)) (main s.toList Option.none h)

/-- C4: float special values.  `jsonify(NaN, arg_struct=False) == "nan"`;
`jsonify(+Inf, arg_struct=True)` is the tagged mapping with `x: "+inf"`;
decoding the tagged encoding of NaN yields a NaN float and of `±Inf` the
same infinity (`float('nan')`/`float('+inf')`/`float('-inf')` via the
resolved `builtins.float`); finite floats, negative zero included, pass
through unchanged under every option combination. -/
theorem c4_float_specials (env : Env)
    (h : resolveEnv env "builtins" "float" = some .floatType) :
    jsonify true false (.float .nan) = .ok (.str "nan") ∧
    jsonify true true (.float (.inf true))
      = .ok (.dict [("$module", .str "builtins"), ("$type", .str "float"),
          ("x", .str "+inf")]) ∧
    (jsonify true true (.float .nan)).bind (unjsonify env true) = .ok (.float .nan) ∧
    (∀ pos, (jsonify true true (.float (.inf pos))).bind (unjsonify env true)
      = .ok (.float (.inf pos))) ∧
    (∀ bits camel arg, jsonify camel arg (.float (.finite bits))
      = .ok (.float (.finite bits))) := by
  have key : ∀ x : String,
      unjsonify env true (.dict [("$module", .str "builtins"),
        ("$type", .str "float"), ("x", .str x)])
        = (pyFloatFromString x).map PyVal.float := by
    intro x
    have hred : unjsonify env true (.dict [("$module", .str "builtins"),
        ("$type", .str "float"), ("x", .str x)])
        = (match resolveEnv env "builtins" "float" with
           | Option.none => .error (.valueError "Could not locate: builtins.float")
           | some r => dispatchResolved true r [("x", .str x)]) := rfl
    rw [hred, h]
    rfl
  refine ⟨rfl, rfl, ?_, ?_, fun bits camel arg => rfl⟩
  · exact key "nan"
  · intro pos
    cases pos
    · exact key "-inf"
    · exact key "+inf"

/-- C4 witness: the theorem applied in the concrete environment that
resolves `builtins.float`. -/
theorem c4_float_specials_witness :
    resolveEnv [(("builtins", "float"), .floatType)] "builtins" "float"
        = some .floatType ∧
    (jsonify true true (.float .nan)).bind
        (unjsonify [(("builtins", "float"), .floatType)] true)
      = .ok (.float .nan) :=
  ⟨rfl, (c4_float_specials [(("builtins", "float"), .floatType)] rfl).2.2.1⟩

/-- C5 (counterexample): re-defining a registered member through the class
statement carries the implicit class-dict entries `__module__`,
`__qualname__` and `__doc__`, so even when the fixed-field values are
identical to the existing member's (here: both define no fixed fields at
all), the supplied dict never equals the stored fixed-field dict and
`StaticData.__new__` raises `StaticInstanceConflict` instead of returning
the existing member — exactly what the repository's own
`test_static_type_instance_conflict` expects. -/
theorem c5_class_syntax_counterexample :
    staticNew ⟨"Name123", [], [("instance123", ⟨"Instance123", [], []⟩)]⟩
        "Instance123"
        [("__module__", .str "tests.test_static"),
         ("__qualname__", .str "Instance123"),
         ("__doc__", .str "Test class.")]
      = .error (.staticInstanceConflict "Could not create Instance123, name in use") := by
  rfl

/-- C5 (amended): when the member name is already registered
(case-insensitively), `StaticData.__new__` compares the supplied definition
dict with the existing member's fixed-field dict under Python `==`: equal
dicts return the existing member itself with the registry unchanged
(idempotent dynamic creation, whose supplied dict is exactly the fixed-field
assignments); any difference — differing fixed-field values, or the implicit
class-statement entries — raises `StaticInstanceConflict`. -/
theorem c5_reregistration (cat : StaticCategory) (name : String)
    (classDict : List (String × PyVal)) (M : StaticMember)
    (hreg : List.lookup (pyLower name) cat.registry = some M) :
    (pyDictEqB classDict M.staticFields = true →
      staticNew cat name classDict = .ok (M, cat)) ∧
    (pyDictEqB classDict M.staticFields = false →
      staticNew cat name classDict
        = .error (.staticInstanceConflict
            ("Could not create " ++ name ++ ", name in use"))) := by
  constructor <;> intro h <;> simp [staticNew, hreg, h]

/-- C5 witness: the theorem applied to a concrete registry holding member
`NewType` with fixed field `a = 1`; re-supplying `a = 1` is idempotent and
re-supplying `a = 2` conflicts. -/
theorem c5_reregistration_witness :
    List.lookup (pyLower "newtype")
        [("newtype", (⟨"NewType", [("a", .int 1)], ["b"]⟩ : StaticMember))]
      = some ⟨"NewType", [("a", .int 1)], ["b"]⟩ ∧
    (staticNew ⟨"Name123", [("a", true), ("b", false)],
        [("newtype", ⟨"NewType", [("a", .int 1)], ["b"]⟩)]⟩ "newtype"
        [("a", .int 1)]
      = .ok (⟨"NewType", [("a", .int 1)], ["b"]⟩,
          ⟨"Name123", [("a", true), ("b", false)],
            [("newtype", ⟨"NewType", [("a", .int 1)], ["b"]⟩)]⟩)) ∧
    (staticNew ⟨"Name123", [("a", true), ("b", false)],
        [("newtype", ⟨"NewType", [("a", .int 1)], ["b"]⟩)]⟩ "newtype"
        [("a", .int 2)]
      = .error (.staticInstanceConflict "Could not create newtype, name in use")) := by
  have h := c5_reregistration
    ⟨"Name123", [("a", true), ("b", false)],
      [("newtype", ⟨"NewType", [("a", .int 1)], ["b"]⟩)]⟩
    "newtype" [("a", .int 1)] ⟨"NewType", [("a", .int 1)], ["b"]⟩ rfl
  have h2 := c5_reregistration
    ⟨"Name123", [("a", true), ("b", false)],
      [("newtype", ⟨"NewType", [("a", .int 1)], ["b"]⟩)]⟩
    "newtype" [("a", .int 2)] ⟨"NewType", [("a", .int 1)], ["b"]⟩ rfl
  exact ⟨rfl, h.1 rfl, h2.2 rfl⟩

/-- C6: on an instance of a freshly created static member class, assigning
to a fixed (static) field raises the `AttributeError` "Frozen attribute"
(leaving the instance untouched — the error carries no new instance), while
assigning to a declared mutable field succeeds and the assigned value is
read back by a subsequent attribute access. -/
theorem c6_fixed_field_write_protection
    (cat : StaticCategory) (name : String) (classDict : List (String × PyVal))
    (M : StaticMember) (cat' : StaticCategory) (slots : List (String × PyVal))
    (attr : String) (v : PyVal)
    (hnodup : (cat.annots.map Prod.fst).Nodup)
    (hfresh : List.lookup (pyLower name) cat.registry = Option.none)
    (hnew : staticNew cat name classDict = .ok (M, cat')) :
    (attr ∈ M.staticFields.map Prod.fst →
      staticSetattr ⟨M, slots⟩ attr v
        = .error (.attributeError ("Frozen attribute: " ++ attr))) ∧
    (attr ∈ M.dynamicFields →
      staticSetattr ⟨M, slots⟩ attr v = .ok ⟨M, dictInsert slots attr v⟩ ∧
      staticGetattr ⟨M, dictInsert slots attr v⟩ attr = .ok v) := by
  constructor
  · intro hmem
    obtain ⟨⟨a, w⟩, haw, hfst⟩ := List.mem_map.1 hmem
    simp only at hfst
    subst hfst
    simp only [staticSetattr]
    rw [if_pos (by simpa using List.mem_map_of_mem Prod.fst haw)]
  · intro hmem
    have hfree : attr ∉ M.staticFields.map Prod.fst :=
      staticNew_dynamic_not_static hnodup hfresh hnew hmem
    refine ⟨?_, ?_⟩
    · simp only [staticSetattr]
      rw [if_neg (by simpa using hfree)]
    · simp [staticGetattr, lookup_dictInsert_self]
theorem c9_snake_case_algorithm_witness :
    validIdent "one2Three" = true ∧
    (snake_case "one2Three"
        = .ok (String.mk (snakeSpecGo Option.none "one2Three".toList)) ∧
      snake_case "one2Three" = .ok "one2_three" ∧
      snake_case "KeyWord" = .ok "key_word") :=
  ⟨rfl, c9_snake_case_algorithm "one2Three" rfl⟩

/-- C7: a timestamp carrying an unrecognised fixed-offset timezone
implementation (neither `pytz`'s type nor `datetime.timezone.utc`) is
encoded with type tags by first converting it to UTC — shifting the instant
by the offset — and emitting the UTC wall-clock components with the zone
string `"UTC"`; decoding that mapping (under either key-casing mode, with
`date_time` resolvable) rebuilds the UTC-zoned datetime, which denotes the
same absolute instant as the original value. -/
theorem c7_unknown_timezone_roundtrip (env : Env) (camel : Bool)
    (y m day tod : Nat) (o : Int)
    (hres : resolveEnv env "pygot.serialisation" "date_time" = some .dateTimeFn)
    (hv : validDate ⟨y, m, day⟩) (hy2 : 2 ≤ y) (hy9 : y ≤ 9998)
    (htod : tod < microPerDay) (ho : o.natAbs < 1440) :
    jsonify camel true (.pydatetime ⟨y, m, day⟩ tod (.custom o))
        = .ok (dtTagDict (astimezoneUtc ⟨y, m, day⟩ tod o).1
            (astimezoneUtc ⟨y, m, day⟩ tod o).2) ∧
    unjsonify env camel (dtTagDict (astimezoneUtc ⟨y, m, day⟩ tod o).1
        (astimezoneUtc ⟨y, m, day⟩ tod o).2)
      = .ok (.pydatetime (astimezoneUtc ⟨y, m, day⟩ tod o).1
          (astimezoneUtc ⟨y, m, day⟩ tod o).2 .pytzUtc) ∧
    instantMicro (astimezoneUtc ⟨y, m, day⟩ tod o).1
        (astimezoneUtc ⟨y, m, day⟩ tod o).2 .pytzUtc
      = instantMicro ⟨y, m, day⟩ tod (.custom o) := by
  obtain ⟨hval, htlt, hinst⟩ := astimezoneUtc_spec y m day tod o hv hy2 hy9 htod ho
  refine ⟨rfl, ?_, ?_⟩
  · have hred : unjsonify env camel (dtTagDict (astimezoneUtc ⟨y, m, day⟩ tod o).1
        (astimezoneUtc ⟨y, m, day⟩ tod o).2)
        = (match resolveEnv env "pygot.serialisation" "date_time" with
           | Option.none =>
             .error (.valueError "Could not locate: pygot.serialisation.date_time")
           | some r => dispatchResolved camel r
               [("year", .int (astimezoneUtc ⟨y, m, day⟩ tod o).1.year),
                ("month", .int (astimezoneUtc ⟨y, m, day⟩ tod o).1.month),
                ("day", .int (astimezoneUtc ⟨y, m, day⟩ tod o).1.day),
                ("hour", .int ((astimezoneUtc ⟨y, m, day⟩ tod o).2 / 3600000000)),
                ("minute", .int ((astimezoneUtc ⟨y, m, day⟩ tod o).2 / 60000000 % 60)),
                ("second", .int ((astimezoneUtc ⟨y, m, day⟩ tod o).2 / 1000000 % 60)),
                ("microsecond", .int ((astimezoneUtc ⟨y, m, day⟩ tod o).2 % 1000000)),
                ("timezone", .str "UTC")]) := rfl
    rw [hred, hres]
    cases camel <;>
      exact dateTimeCall_components (astimezoneUtc ⟨y, m, day⟩ tod o).1
        (astimezoneUtc ⟨y, m, day⟩ tod o).2 hval htlt
  · simp only [instantMicro, tzOffsetMicro, microPerDay] at hinst ⊢
    omega

/-- C7 witness: 2020-04-29 14:15:16.000789 at a fixed +10-minute offset
(the repository's test vector) encodes to the 14:05:16.000789 UTC
components and decodes back to that UTC-zoned instant. -/
theorem c7_unknown_timezone_roundtrip_witness :
    resolveEnv [(("pygot.serialisation", "date_time"), Resolved.dateTimeFn)]
        "pygot.serialisation" "date_time" = some .dateTimeFn ∧
    validDate ⟨2020, 4, 29⟩ ∧ (2 : Nat) ≤ 2020 ∧ (2020 : Nat) ≤ 9998 ∧
    (51316000789 : Nat) < microPerDay ∧ ((10 : Int)).natAbs < 1440 ∧
    unjsonify [(("pygot.serialisation", "date_time"), Resolved.dateTimeFn)] true
        (dtTagDict ⟨2020, 4, 29⟩ 50716000789)
      = .ok (.pydatetime ⟨2020, 4, 29⟩ 50716000789 .pytzUtc) := by
  refine ⟨rfl, by decide, by decide, by decide, by decide, by decide, ?_⟩
  exact (c7_unknown_timezone_roundtrip
    [(("pygot.serialisation", "date_time"), Resolved.dateTimeFn)] true
    2020 4 29 51316000789 10 rfl (by decide) (by decide) (by decide) (by decide)
    (by decide)).2.1

/-- C1 (counterexample): the round trip fails with camel-cased keys when a
field value is a mapping whose key is already camel-shaped: `camel_case`
lowercases its whole input, so the nested key `someReally` is emitted as
`somereally` and decodes to `somereally`, not back to `someReally`.  The
encode/decode composition therefore returns a different value. -/
theorem c1_roundtrip_counterexample :
    (jsonify true true (.dataclass "m" "D" [("a", .dict [("someReally", .int 1)])])).bind
        (unjsonify [(("m", "D"), Resolved.dataclassCtor "m" "D" ["a"])] true)
      = .ok (.dataclass "m" "D" [("a", .dict [("somereally", .int 1)])]) ∧
    PyVal.dataclass "m" "D" [("a", .dict [("somereally", .int 1)])]
      ≠ PyVal.dataclass "m" "D" [("a", .dict [("someReally", .int 1)])] := by
  refine ⟨rfl, ?_⟩
  intro h
  have h2 := congrArg (fun v => match v with
    | PyVal.dataclass _ _ ((_, PyVal.dict ((k, _) :: _)) :: _) => k
    | _ => "") h
  simp at h2

/-- C1 (amended): a dataclass value round-trips through tag-enabled
encoding and decoding, for either key-casing setting, provided the import
environment resolves its tag to a constructor with exactly its field
names, its field names are distinct valid identifiers, its field values
lie in the JSON-safe space (no NaN/infinities, no nested tagged types,
string-keyed mappings with distinct non-reserved keys), and — where camel
casing is involved — every mapping key and field name is stable under the
camel/snake conversion round trip (`snake_case(camel_case(k)) = k`). -/
theorem c1_dataclass_roundtrip (env : Env) (camel : Bool) (dm dn : String)
    (fs : List (String × PyVal))
    (hres : resolveEnv env dm dn = some (.dataclassCtor dm dn (fs.map Prod.fst)))
    (hnd : (fs.map Prod.fst).Nodup)
    (hnames : ∀ k ∈ fs.map Prod.fst, goodFieldName camel k = true)
    (hvals : ∀ kv ∈ fs, roundSafe camel kv.2 = true) :
    (jsonify camel true (.dataclass dm dn fs)).bind (unjsonify env camel)
      = .ok (.dataclass dm dn fs) := by
  have hrt : ∀ kv ∈ fs, ∃ w, jsonify camel true kv.2 = .ok w ∧
      unjsonify env camel w = .ok kv.2 := fun kv hkv =>
    roundSafe_RT env camel kv.2 (hvals kv hkv)
  have hg : ∀ kv ∈ fs, goodFieldName camel kv.1 = true := fun kv hkv =>
    hnames kv.1 (List.mem_map_of_mem Prod.fst hkv)
  obtain ⟨es', henc, hf2⟩ := jsonifyFields_rt env camel fs hg hrt
  have h1 : jsonify camel true (.dataclass dm dn fs)
      = (jsonifyFields camel true fs).bind (fun ps =>
          pure (.dict (dictInsert (dictInsert (fromPairs ps) "$module" (.str dm))
            "$type" (.str dn)))) := rfl
  rw [h1, henc]
  cases camel with
  | false =>
    have hfd : List.Forall₂ (fun p q : String × PyVal =>
        p.1 = q.1 ∧ unjsonify env false p.2 = .ok q.2) es' fs := by
      have hx := forall2_field_to_dec hf2
      simpa using hx
    have hkeys : es'.map Prod.fst = fs.map Prod.fst := forall2_dec_keys hfd
    have hnd' : (es'.map Prod.fst).Nodup := by rw [hkeys]; exact hnd
    have hresv : ∀ k ∈ fs.map Prod.fst, k ≠ "$module" ∧ k ≠ "$type" := fun k hk =>
      validIdent_ne_reserved (goodFieldName_parts (hnames k hk)).1
    have hmod : "$module" ∉ fs.map Prod.fst := fun hm => (hresv _ hm).1 rfl
    have htyp : "$type" ∉ fs.map Prod.fst := fun hm => (hresv _ hm).2 rfl
    have hmod' : "$module" ∉ es'.map Prod.fst := by rw [hkeys]; exact hmod
    have htyp2 : "$type" ∉ (es' ++ [("$module", PyVal.str dm)]).map Prod.fst := by
      rw [List.map_append, hkeys]
      intro hm
      rcases List.mem_append.1 hm with hm1 | hm2
      · exact htyp hm1
      · have hmapeq : List.map Prod.fst [("$module", PyVal.str dm)] = ["$module"] := rfl
        rw [hmapeq] at hm2
        simp at hm2
    have hdi : dictInsert (dictInsert es' "$module" (PyVal.str dm)) "$type" (PyVal.str dn)
        = es' ++ [("$module", PyVal.str dm), ("$type", PyVal.str dn)] := by
      rw [dictInsert_append es' "$module" _ hmod', dictInsert_append _ "$type" _ htyp2,
        List.append_assoc]
      rfl
    show unjsonify env false (.dict (dictInsert (dictInsert (fromPairs es') "$module"
        (PyVal.str dm)) "$type" (PyVal.str dn))) = .ok (.dataclass dm dn fs)
    rw [fromPairs_eq hnd', hdi]
    have htags : List.Forall₂ (fun p q : String × PyVal =>
        p.1 = q.1 ∧ unjsonify env false p.2 = .ok q.2)
        [("$module", PyVal.str dm), ("$type", PyVal.str dn)]
        [("$module", PyVal.str dm), ("$type", PyVal.str dn)] :=
      List.Forall₂.cons ⟨rfl, rfl⟩ (List.Forall₂.cons ⟨rfl, rfl⟩ List.Forall₂.nil)
    have huv : unjsonifyValues env false
        (es' ++ [("$module", PyVal.str dm), ("$type", PyVal.str dn)])
        = .ok (fs ++ [("$module", PyVal.str dm), ("$type", PyVal.str dn)]) :=
      unjsonifyValues_forall₂ (forall2_dec_append hfd htags)
    rw [unjsonify_dict_tagged huv hnd hmod htyp, hres]
    show dataclassCall dm dn (fs.map Prod.fst) fs = .ok (.dataclass dm dn fs)
    exact dataclassCall_self hnd
  | true =>
    have hkRT : ∀ k ∈ fs.map Prod.fst, keyRT k = true := fun k hk =>
      (goodFieldName_parts (hnames k hk)).2 rfl
    have hfd : List.Forall₂ (fun p q : String × PyVal =>
        p.1 = q.1 ∧ unjsonify env true p.2 = .ok q.2) es'
        (fs.map (fun kv => (camelOf kv.1, kv.2))) := forall2_field_to_dec hf2
    have hdnd : ((fs.map (fun kv => (camelOf kv.1, kv.2))).map Prod.fst).Nodup :=
      camel_keys_nodup hnd hkRT
    have hkeys : es'.map Prod.fst = (fs.map (fun kv => (camelOf kv.1, kv.2))).map Prod.fst :=
      forall2_dec_keys hfd
    have hnd' : (es'.map Prod.fst).Nodup := by rw [hkeys]; exact hdnd
    have hnr := camel_keys_not_reserved (d := fs) hkRT
    have hmod' : "$module" ∉ es'.map Prod.fst := by rw [hkeys]; exact hnr.1
    have htyp2 : "$type" ∉ (es' ++ [("$module", PyVal.str dm)]).map Prod.fst := by
      rw [List.map_append, hkeys]
      intro hm
      rcases List.mem_append.1 hm with hm1 | hm2
      · exact hnr.2 hm1
      · have hmapeq : List.map Prod.fst [("$module", PyVal.str dm)] = ["$module"] := rfl
        rw [hmapeq] at hm2
        simp at hm2
    have hdi : dictInsert (dictInsert es' "$module" (PyVal.str dm)) "$type" (PyVal.str dn)
        = es' ++ [("$module", PyVal.str dm), ("$type", PyVal.str dn)] := by
      rw [dictInsert_append es' "$module" _ hmod', dictInsert_append _ "$type" _ htyp2,
        List.append_assoc]
      rfl
    show unjsonify env true (.dict (dictInsert (dictInsert (fromPairs es') "$module"
        (PyVal.str dm)) "$type" (PyVal.str dn))) = .ok (.dataclass dm dn fs)
    rw [fromPairs_eq hnd', hdi]
    have htags : List.Forall₂ (fun p q : String × PyVal =>
        p.1 = q.1 ∧ unjsonify env true p.2 = .ok q.2)
        [("$module", PyVal.str dm), ("$type", PyVal.str dn)]
        [("$module", PyVal.str dm), ("$type", PyVal.str dn)] :=
      List.Forall₂.cons ⟨rfl, rfl⟩ (List.Forall₂.cons ⟨rfl, rfl⟩ List.Forall₂.nil)
    have huv : unjsonifyValues env true
        (es' ++ [("$module", PyVal.str dm), ("$type", PyVal.str dn)])
        = .ok ((fs.map (fun kv => (camelOf kv.1, kv.2)))
            ++ [("$module", PyVal.str dm), ("$type", PyVal.str dn)]) :=
      unjsonifyValues_forall₂ (forall2_dec_append hfd htags)
    rw [unjsonify_dict_tagged huv hdnd hnr.1 hnr.2, hres]
    show (kwargsKeys true (dm ++ "." ++ dn) (fs.map (fun kv => (camelOf kv.1, kv.2)))).bind
        (fun kwargs => dataclassCall dm dn (fs.map Prod.fst) kwargs)
      = .ok (.dataclass dm dn fs)
    have hkw : kwargsKeys true (dm ++ "." ++ dn) (fs.map (fun kv => (camelOf kv.1, kv.2)))
        = .ok fs := by
      unfold kwargsKeys
      rw [if_pos rfl, kwargs_mapM_eq hkRT]
      show Except.ok (fromPairs fs) = _
      rw [fromPairs_eq hnd]
    rw [hkw]
    show dataclassCall dm dn (fs.map Prod.fst) fs = .ok (.dataclass dm dn fs)
    exact dataclassCall_self hnd

/-- C1 witness: a one-field dataclass whose field holds a mapping, with
camel casing on, round-trips to itself. -/
theorem c1_dataclass_roundtrip_witness :
    (([("some_field", PyVal.dict [("inner_key", PyVal.int 7)])].map Prod.fst).Nodup) ∧
    (∀ k ∈ [("some_field", PyVal.dict [("inner_key", PyVal.int 7)])].map Prod.fst,
        goodFieldName true k = true) ∧
    (∀ kv ∈ [("some_field", PyVal.dict [("inner_key", PyVal.int 7)])],
        roundSafe true kv.2 = true) ∧
    (jsonify true true (.dataclass "mod" "Rec"
        [("some_field", PyVal.dict [("inner_key", PyVal.int 7)])])).bind
      (unjsonify [(("mod", "Rec"), Resolved.dataclassCtor "mod" "Rec" ["some_field"])] true)
      = .ok (.dataclass "mod" "Rec"
          [("some_field", PyVal.dict [("inner_key", PyVal.int 7)])]) := by
  refine ⟨by decide, by decide, by decide, ?_⟩
  exact c1_dataclass_roundtrip
    [(("mod", "Rec"), Resolved.dataclassCtor "mod" "Rec" ["some_field"])] true "mod" "Rec"
    [("some_field", PyVal.dict [("inner_key", PyVal.int 7)])]
    rfl (by decide) (by decide) (by decide)

/-- C8: a mapping carrying both reserved tag keys whose named module/type
pair the import environment cannot resolve makes `unjsonify` fail with the
`TypeResolutionError`-wrapping `ValueError` (the decoder raises
`TypeResolutionError(e)`, a `ValueError` subclass, from the failed
`import_module`/`getattr`), rather than returning a value.  Stated for
mappings whose ordinary entries decode successfully and whose keys are
distinct (the Python dict invariant), with the tag entries in insertion
order after the data entries. -/
theorem c8_unresolvable_tag (env : Env) (camel : Bool) (m t : String)
    (D dfs : List (String × PyVal))
    (huv : unjsonifyValues env camel D
      = .ok (dfs ++ [("$module", PyVal.str m), ("$type", PyVal.str t)]))
    (hnd : (dfs.map Prod.fst).Nodup)
    (hmod : "$module" ∉ dfs.map Prod.fst) (htyp : "$type" ∉ dfs.map Prod.fst)
    (hres : resolveEnv env m t = Option.none) :
    unjsonify env camel (.dict D)
      = .error (.valueError ("Could not locate: " ++ m ++ "." ++ t)) := by
  rw [unjsonify_dict_tagged huv hnd hmod htyp, hres]

/-- C8 witness: decoding `{"a": 1, "$module": "missing", "$type": "Gone"}`
in an empty import environment fails with the resolution error. -/
theorem c8_unresolvable_tag_witness :
    unjsonifyValues [] false [("a", PyVal.int 1), ("$module", PyVal.str "missing"),
        ("$type", PyVal.str "Gone")]
      = .ok ([("a", PyVal.int 1)] ++ [("$module", PyVal.str "missing"),
          ("$type", PyVal.str "Gone")]) ∧
    unjsonify [] false (.dict [("a", PyVal.int 1), ("$module", PyVal.str "missing"),
        ("$type", PyVal.str "Gone")])
      = .error (.valueError "Could not locate: missing.Gone") := by
  refine ⟨rfl, ?_⟩
  exact c8_unresolvable_tag [] false "missing" "Gone"
    [("a", PyVal.int 1), ("$module", PyVal.str "missing"), ("$type", PyVal.str "Gone")]
    [("a", PyVal.int 1)] rfl (by decide) (by decide) (by decide) rfl

/-- C10: a mapping holding exactly one of the two reserved keys decodes as
a plain mapping from which that lone reserved key has been removed — both
`pop` calls run before the presence test, so the present reserved entry is
silently dropped whatever its value (stated for the un-camel-cased decode;
the lone tag may be either `$module` or `$type`, in insertion order after
the data entries). -/
theorem c10_lone_reserved_key_dropped (env : Env) (x : PyVal)
    (D dfs : List (String × PyVal))
    (hnd : (dfs.map Prod.fst).Nodup)
    (hmod : "$module" ∉ dfs.map Prod.fst) (htyp : "$type" ∉ dfs.map Prod.fst) :
    (unjsonifyValues env false D = .ok (dfs ++ [("$module", x)]) →
      unjsonify env false (.dict D) = .ok (.dict dfs)) ∧
    (unjsonifyValues env false D = .ok (dfs ++ [("$type", x)]) →
      unjsonify env false (.dict D) = .ok (.dict dfs)) := by
  constructor
  · intro huv
    rw [unjsonify_dict_split, huv]
    show uDictRest env false (dfs ++ [("$module", x)]) = .ok (.dict dfs)
    unfold uDictRest
    dsimp only
    have hmap1 : List.map Prod.fst [("$module", x)] = ["$module"] := rfl
    have hndall : ((dfs ++ [("$module", x)]).map Prod.fst).Nodup := by
      rw [List.map_append, hmap1]
      refine List.Nodup.append hnd (by decide) ?_
      intro a ha ha2
      rw [show a ∈ ["$module"] ↔ a = "$module" from List.mem_singleton] at ha2
      subst ha2
      exact hmod ha
    rw [fromPairs_eq hndall, dictPop_append_left hmod]
    have hp1 : dictPop "$module" [("$module", x)] = (some x, []) := rfl
    rw [hp1]
    dsimp only
    rw [List.append_nil, dictPop_not_mem htyp]
    cases hx : noneToAbsent (some x) <;> rfl
  · intro huv
    rw [unjsonify_dict_split, huv]
    show uDictRest env false (dfs ++ [("$type", x)]) = .ok (.dict dfs)
    unfold uDictRest
    dsimp only
    have hmap1 : List.map Prod.fst [("$type", x)] = ["$type"] := rfl
    have hndall : ((dfs ++ [("$type", x)]).map Prod.fst).Nodup := by
      rw [List.map_append, hmap1]
      refine List.Nodup.append hnd (by decide) ?_
      intro a ha ha2
      rw [show a ∈ ["$type"] ↔ a = "$type" from List.mem_singleton] at ha2
      subst ha2
      exact htyp ha
    have hmodall : "$module" ∉ ((dfs ++ [("$type", x)]).map Prod.fst) := by
      rw [List.map_append, hmap1]
      intro hm
      rcases List.mem_append.1 hm with hm1 | hm2
      · exact hmod hm1
      · rw [List.mem_singleton] at hm2
        exact absurd hm2 (by decide)
    rw [fromPairs_eq hndall, dictPop_not_mem hmodall]
    dsimp only
    rw [dictPop_append_left htyp]
    have hp2 : dictPop "$type" [("$type", x)] = (some x, []) := rfl
    rw [hp2]
    dsimp only
    rw [List.append_nil]
    rfl

/-- C10 witness: `{"a": 1, "$module": "orphan"}` (no `$type`) decodes to
`{"a": 1}` — the lone reserved key disappears. -/
theorem c10_lone_reserved_key_dropped_witness :
    unjsonifyValues [] false [("a", PyVal.int 1), ("$module", PyVal.str "orphan")]
      = .ok ([("a", PyVal.int 1)] ++ [("$module", PyVal.str "orphan")]) ∧
    unjsonify [] false (.dict [("a", PyVal.int 1), ("$module", PyVal.str "orphan")])
      = .ok (.dict [("a", PyVal.int 1)]) := by
  refine ⟨rfl, ?_⟩
  exact (c10_lone_reserved_key_dropped [] (PyVal.str "orphan")
    [("a", PyVal.int 1), ("$module", PyVal.str "orphan")] [("a", PyVal.int 1)]
    (by decide) (by decide) (by decide)).1 rfl

/-- C6 witness: a fresh `House` category member `Stark` with fixed field
`words` and mutable field `sigil`: writing `words` raises the frozen-
attribute error, writing then reading `sigil` stores and returns the
value. -/
theorem c6_fixed_field_write_protection_witness :
    staticNew ⟨"House", [("words", true), ("sigil", false)], []⟩ "Stark"
        [("words", PyVal.str "Winter is Coming")]
      = .ok (⟨"Stark", [("words", PyVal.str "Winter is Coming")], ["sigil"]⟩,
          ⟨"House", [("words", true), ("sigil", false)],
            [("stark", ⟨"Stark", [("words", PyVal.str "Winter is Coming")], ["sigil"]⟩)]⟩) ∧
    staticSetattr ⟨⟨"Stark", [("words", PyVal.str "Winter is Coming")], ["sigil"]⟩, []⟩
        "words" (PyVal.str "x")
      = .error (.attributeError "Frozen attribute: words") ∧
    staticSetattr ⟨⟨"Stark", [("words", PyVal.str "Winter is Coming")], ["sigil"]⟩, []⟩
        "sigil" (PyVal.str "direwolf")
      = .ok ⟨⟨"Stark", [("words", PyVal.str "Winter is Coming")], ["sigil"]⟩,
          [("sigil", PyVal.str "direwolf")]⟩ ∧
    staticGetattr ⟨⟨"Stark", [("words", PyVal.str "Winter is Coming")], ["sigil"]⟩,
        [("sigil", PyVal.str "direwolf")]⟩ "sigil" = .ok (PyVal.str "direwolf") := by
  have h1 := c6_fixed_field_write_protection
    ⟨"House", [("words", true), ("sigil", false)], []⟩ "Stark"
    [("words", PyVal.str "Winter is Coming")]
    ⟨"Stark", [("words", PyVal.str "Winter is Coming")], ["sigil"]⟩
    ⟨"House", [("words", true), ("sigil", false)],
      [("stark", ⟨"Stark", [("words", PyVal.str "Winter is Coming")], ["sigil"]⟩)]⟩
    [] "words" (PyVal.str "x") (by decide) rfl rfl
  have h2 := c6_fixed_field_write_protection
    ⟨"House", [("words", true), ("sigil", false)], []⟩ "Stark"
    [("words", PyVal.str "Winter is Coming")]
    ⟨"Stark", [("words", PyVal.str "Winter is Coming")], ["sigil"]⟩
    ⟨"House", [("words", true), ("sigil", false)],
      [("stark", ⟨"Stark", [("words", PyVal.str "Winter is Coming")], ["sigil"]⟩)]⟩
    [] "sigil" (PyVal.str "direwolf") (by decide) rfl rfl
  exact ⟨rfl, h1.1 (by decide), (h2.2 (by decide)).1, (h2.2 (by decide)).2⟩

end Pygot
